import Mathlib

/-!
Shallow embedding of aerleon/lib/openconfig.py (OpenConfig ACL generator):
the Term expander (Term.ConvertToDict and its Set* helpers) and the
translator / sequencer (OpenConfig._TranslatePolicy / _TranslateTerms),
followed by theorems settling the specification claims.

Python dictionaries built by the code are modelled as records of optional
fields; the auto-vivifying RecursiveDict levels term_dict[family]['config']
and term_dict['transport']['config'] are flattened into one optional record
per block (a block is present exactly when the Python code has written at
least one key under it).  Exceptions are modelled with Except.
-/

set_option linter.unusedVariables false

namespace Oc

/-- Protocol entries of a policy term are either string mnemonics or numeric
identifiers, mirroring the dynamic str-or-int typing of the Python list. -/
inductive ProtoSpec where
| str (s : String)
| num (n : Nat)
deriving DecidableEq, Repr

/-- Modelled from the spec: the upstream flattening stage hands the core
family-tagged concrete addresses (policy.Term / aclgenerator are outside the
sources).  An address carries its IP version and its textual form. -/
structure IPAddr where
  version : Nat
  text : String
deriving DecidableEq, Repr

/-- Input term, as consumed by openconfig.Term: the fields ConvertToDict and
the Set* helpers read from policy.Term after FlattenAll has run. -/
structure PolTerm where
  name : String
  action : List String
  flattened_saddr : List IPAddr
  flattened_daddr : List IPAddr
  source_port : List (Nat × Nat)
  destination_port : List (Nat × Nat)
  protocol : List ProtoSpec
  option : List String
  comment : List String
deriving DecidableEq, Repr

/-- Exceptions raised by the generator.  ocFirewall is
OcFirewallError('Protocol %s unknown. Use an integer.', proto) and carries
the offending token; tcpEstab is TcpEstablishedWithNonTcpError and carries
its full message; keyErr / indexErr / nameErr model the Python KeyError,
IndexError and NameError paths. -/
inductive OcError where
| ocFirewall (proto : String)
| tcpEstab (msg : String)
| keyErr (key : String)
| indexErr
| nameErr
deriving DecidableEq, Repr

/-- String arguments carried by each exception, as the Python constructors
receive them. -/
def errorStrings : OcError → List String
| .ocFirewall p => ["Protocol %s unknown. Use an integer.", p]
| .tcpEstab m => [m]
| .keyErr k => [k]
| .indexErr => []
| .nameErr => []

/-- Does the character list needle occur contiguously inside hay? -/
def isSubList (needle hay : List Char) : Bool :=
  hay.tails.any (fun t => needle.isPrefixOf t)

/-- Does needle occur as a substring of hay? -/
def containsText (hay needle : String) : Bool :=
  isSubList needle.data hay.data

/-- Does some string carried by the error contain the given text? -/
def carriesText (e : OcError) (needle : String) : Bool :=
  (errorStrings e).any (fun s => containsText s needle)

/-- Modelled from the spec: the protocol-name map (aclgenerator.Term.PROTO_MAP
is outside the sources); the spec lists the mnemonics tcp, udp, icmp, esp,
ah, ipip, sctp with their fixed numeric identifiers, matching the file's
_ALLOW_PROTO_NAME set. -/
def PROTO_MAP : String → Option Nat
| "tcp" => some 6
| "udp" => some 17
| "icmp" => some 1
| "esp" => some 50
| "ah" => some 51
| "ipip" => some 4
| "sctp" => some 132
| _ => none

/-- Modelled from the spec: aclgenerator.Term.AF_MAP (outside the sources)
sends the family tokens inet / inet6 to the IP versions 4 / 6. -/
def AF_MAP : String → Option Nat
| "inet" => some 4
| "inet6" => some 6
| _ => none

/-- Term.AF_RENAME of the source file: IP version to OpenConfig schema
block name. -/
def AF_RENAME : Nat → Option String
| 4 => some "ipv4"
| 6 => some "ipv6"
| _ => none

/-- Term.ACTION_MAP of the source file. -/
def ACTION_MAP : String → Option String
| "accept" => some "ACCEPT"
| "deny" => some "DROP"
| "reject" => some "REJECT"
| _ => none

/-- Modelled from the spec: policy.Term.GetAddressOfVersion (outside the
sources) returns the flattened addresses of the requested family, in order. -/
def GetAddressOfVersion (addrs : List IPAddr) (af : Nat) : List String :=
  (addrs.filter (fun a => a.version == af)).map (fun a => a.text)

/-- A port value in an emitted entry: the Python code stores either the int
start (when start == end) or the string "start..end". -/
inductive PortVal where
| scalar (n : Nat)
| interval (s e : Nat)
deriving DecidableEq, Repr

/-- Fields of term_dict[family]['config'] (the IPConfig TypedDict). -/
structure IPConfig where
  source_address : Option String := none
  destination_address : Option String := none
  protocol : Option Nat := none
deriving DecidableEq, Repr

/-- Fields of term_dict['transport']['config'] (the TransportConfig
TypedDict). -/
structure TransportConfig where
  source_port : Option PortVal := none
  destination_port : Option PortVal := none
  detail_mode : Option String := none
  builtin_detail : Option String := none
deriving DecidableEq, Repr

/-- The working term_dict / an emitted acl-entry.  A block is some when the
Python dict holds that key. -/
structure ACLEntry where
  actions : Option String := none
  ipv4 : Option IPConfig := none
  ipv6 : Option IPConfig := none
  transport : Option TransportConfig := none
  sequence_id : Option Nat := none
deriving DecidableEq, Repr

def emptyEntry : ACLEntry := {}

/-- Read the family block the given schema name addresses (auto-vivified
empty when absent, as RecursiveDict does on write). -/
def getIP (family : String) (d : ACLEntry) : IPConfig :=
  (if family = "ipv4" then d.ipv4 else d.ipv6).getD {}

/-- Store back the family block under the given schema name. -/
def putIP (family : String) (c : IPConfig) (d : ACLEntry) : ACLEntry :=
  if family = "ipv4" then { d with ipv4 := some c } else { d with ipv6 := some c }

/-- Transport config block, auto-vivified empty when absent. -/
def getTransport (d : ACLEntry) : TransportConfig :=
  d.transport.getD {}

/-- Term.SetAction: ACTION_MAP[self.term.action[0]] then writes
actions.config.forwarding-action (action[0] on an empty list raises
IndexError, a missing map entry raises KeyError). -/
def SetAction (t : PolTerm) (d : ACLEntry) : Except OcError ACLEntry :=
  match t.action with
  | [] => .error .indexErr
  | a :: _ =>
    match ACTION_MAP a with
    | none => .error (.keyErr a)
    | some x => .ok { d with actions := some x }

/-- Term._tcp_established: the fixed OpenConfig TCP_ESTABLISHED marker pair,
applied to a transport config by dict.update. -/
def tcpEstablishedUpdate (tc : TransportConfig) : TransportConfig :=
  { tc with detail_mode := some "BUILTIN", builtin_detail := some "TCP_ESTABLISHED" }

/-- Term.SetOptions: when the term has options and tcp-established is among
them, require protocol == ['tcp'] (else raise
TcpEstablishedWithNonTcpError with the term name in the message) and merge
the marker pair into transport.config. -/
def SetOptions (t : PolTerm) (d : ACLEntry) : Except OcError ACLEntry :=
  if t.option ≠ [] then
    if "tcp-established" ∈ t.option then
      if t.protocol ≠ [ProtoSpec.str "tcp"] then
        .error (.tcpEstab
          ("tcp-established can only be used with tcp protocol in term " ++ t.name))
      else
        .ok { d with transport := some (tcpEstablishedUpdate (getTransport d)) }
    else .ok d
  else .ok d

/-- Term.SetSourceAddress: term_dict[family]['config']['source-address']. -/
def SetSourceAddress (family : String) (saddr : String) (d : ACLEntry) : ACLEntry :=
  putIP family { getIP family d with source_address := some saddr } d

/-- Term.SetDestAddress: term_dict[family]['config']['destination-address']. -/
def SetDestAddress (family : String) (daddr : String) (d : ACLEntry) : ACLEntry :=
  putIP family { getIP family d with destination_address := some daddr } d

/-- Term.SetSourcePorts: scalar when start == end, else the
"start..end" string. -/
def SetSourcePorts (s e : Nat) (d : ACLEntry) : ACLEntry :=
  let v := if s = e then PortVal.scalar s else PortVal.interval s e
  { d with transport := some ({ getTransport d with source_port := some v }) }

/-- Term.SetDestPorts: scalar when start == end, else the
"start..end" string. -/
def SetDestPorts (s e : Nat) (d : ACLEntry) : ACLEntry :=
  let v := if s = e then PortVal.scalar s else PortVal.interval s e
  { d with transport := some ({ getTransport d with destination_port := some v }) }

/-- Term.SetProtocol: term_dict[family]['config']['protocol']. -/
def SetProtocol (family : String) (protocol : Nat) (d : ACLEntry) : ACLEntry :=
  putIP family { getIP family d with protocol := some protocol } d

/-- The protocol branch of the innermost loop of ConvertToDict: strings
other than the sentinel are resolved through PROTO_MAP (an unknown name
raises OcFirewallError carrying the token), integers are used directly. -/
def resolveProto (family : String) (p : ProtoSpec) (d : ACLEntry) : Except OcError ACLEntry :=
  match p with
  | .str s =>
    if s ≠ "none" then
      match PROTO_MAP s with
      | none => .error (.ocFirewall s)
      | some n => .ok (SetProtocol family n d)
    else .ok d
  | .num n => .ok (SetProtocol family n d)

/-- Innermost loop of ConvertToDict (for proto in protos): resolve the
protocol into the shared dict, then append a deep copy of the dict to the
rules. -/
def runProtos (family : String) (protos : List ProtoSpec) (d : ACLEntry)
    (rules : List ACLEntry) : Except OcError (ACLEntry × List ACLEntry) :=
  match protos with
  | [] => .ok (d, rules)
  | p :: ps =>
    match resolveProto family p d with
    | .error e => .error e
    | .ok d1 => runProtos family ps d1 (rules ++ [d1])

/-- Destination-port loop of ConvertToDict: write the port unless the range
is the (0, 0) any-sentinel, then run the protocol loop; the shared dict
threads on into the next iteration. -/
def runDports (family : String) (dports : List (Nat × Nat)) (protos : List ProtoSpec)
    (d : ACLEntry) (rules : List ACLEntry) : Except OcError (ACLEntry × List ACLEntry) :=
  match dports with
  | [] => .ok (d, rules)
  | (s, e) :: rest =>
    let d1 := if s = e ∧ e = 0 then d else SetDestPorts s e d
    match runProtos family protos d1 rules with
    | .error er => .error er
    | .ok (d2, r2) => runDports family rest protos d2 r2

/-- Source-port loop of ConvertToDict, same sentinel convention. -/
def runSports (family : String) (sports dports : List (Nat × Nat)) (protos : List ProtoSpec)
    (d : ACLEntry) (rules : List ACLEntry) : Except OcError (ACLEntry × List ACLEntry) :=
  match sports with
  | [] => .ok (d, rules)
  | (s, e) :: rest =>
    let d1 := if s = e ∧ e = 0 then d else SetSourcePorts s e d
    match runDports family dports protos d1 rules with
    | .error er => .error er
    | .ok (d2, r2) => runSports family rest dports protos d2 r2

/-- Destination-address loop of ConvertToDict; none is the placeholder the
code writes nothing for (the Python string 'any', which never equals a real
address object). -/
def runDaddrs (family : String) (daddrs : List (Option String))
    (sports dports : List (Nat × Nat)) (protos : List ProtoSpec)
    (d : ACLEntry) (rules : List ACLEntry) : Except OcError (ACLEntry × List ACLEntry) :=
  match daddrs with
  | [] => .ok (d, rules)
  | da :: rest =>
    let d1 := da.elim d (fun a => SetDestAddress family a d)
    match runSports family sports dports protos d1 rules with
    | .error er => .error er
    | .ok (d2, r2) => runDaddrs family rest sports dports protos d2 r2

/-- Source-address loop of ConvertToDict. -/
def runSaddrs (family : String) (saddrs daddrs : List (Option String))
    (sports dports : List (Nat × Nat)) (protos : List ProtoSpec)
    (d : ACLEntry) (rules : List ACLEntry) : Except OcError (ACLEntry × List ACLEntry) :=
  match saddrs with
  | [] => .ok (d, rules)
  | sa :: rest =>
    let d1 := sa.elim d (fun a => SetSourceAddress family a d)
    match runDaddrs family daddrs sports dports protos d1 rules with
    | .error er => .error er
    | .ok (d2, r2) => runSaddrs family rest daddrs sports dports protos d2 r2

/-- The ballot-fatigue substitution for address lists: an empty list becomes
the single placeholder 'any' (here: none). -/
def anySub (l : List String) : List (Option String) :=
  if l.isEmpty then [none] else l.map some

/-- The substitution for empty port lists: the single (0, 0) sentinel. -/
def portSub (l : List (Nat × Nat)) : List (Nat × Nat) :=
  if l.isEmpty then [(0, 0)] else l

/-- The substitution for an empty protocol list: the single 'none'
sentinel string. -/
def protoSub (l : List ProtoSpec) : List ProtoSpec :=
  if l.isEmpty then [ProtoSpec.str "none"] else l

/-- The body of Term.ConvertToDict once the address family has been
resolved: set the action, substitute the any placeholders, resolve the
options once, then explode the nested loops over the shared dict. -/
def convertCore (t : PolTerm) (term_af : Nat) (family : String) :
    Except OcError (List ACLEntry) :=
  match SetAction t emptyEntry with
  | .error e => .error e
  | .ok d0 =>
    match SetOptions t d0 with
    | .error e => .error e
    | .ok d1 =>
      match runSaddrs family
          (anySub (GetAddressOfVersion t.flattened_saddr term_af))
          (anySub (GetAddressOfVersion t.flattened_daddr term_af))
          (portSub t.source_port) (portSub t.destination_port)
          (protoSub t.protocol) d1 [] with
      | .error e => .error e
      | .ok (_, rules) => .ok rules

/-- Term.ConvertToDict: resolve inet_version through AF_MAP and AF_RENAME
(KeyError when unknown), then run the expansion.  filter_options is passed
through to the Set* helpers, none of which uses it. -/
def ConvertToDict (t : PolTerm) (inet_version : String) (filter_options : List String) :
    Except OcError (List ACLEntry) :=
  match AF_MAP inet_version with
  | none => .error (.keyErr inet_version)
  | some term_af =>
    match AF_RENAME term_af with
    | none => .error (.keyErr (toString term_af))
    | some family => convertCore t term_af family

/-- Policy filter header, reduced to what _TranslatePolicy reads from it:
header.FilterOptions(platform) and header.FilterName(platform). -/
structure Header where
  filter_options : List String
  filter_name : String
deriving DecidableEq, Repr

/-- OpenConfig._SUPPORTED_AF.  The Python value is a frozenset, iterated in
an order the language does not fix; the claims proved below do not depend
on the order chosen here. -/
def SUPPORTED_AF : List String := ["inet", "inet6", "mixed"]

/-- The family-token scan of _TranslatePolicy: every supported token found
among the filter options selects that family and is removed from the
options (default inet). -/
def extractAF (opts : List String) : String × List String :=
  SUPPORTED_AF.foldl
    (fun st i => if i ∈ st.2 then (i, st.2.erase i) else st) ("inet", opts)

/-- OpenConfig.FAMILY_MAP of the source file. -/
def FAMILY_MAP : String → Option String
| "mixed" => some "ACL_MIXED"
| "inet6" => some "ACL_IPV6"
| "inet" => some "ACL_IPV4"
| _ => none

/-- The per-rule body of _TranslateTerms: increment total_rule_count and
store sequence-id = total_rule_count * 5 on each emitted rule, in order. -/
def assignSeq (c : Nat) : List ACLEntry → Nat × List ACLEntry
| [] => (c, [])
| r :: rs =>
  ((assignSeq (c + 1) rs).1,
    { r with sequence_id := some ((c + 1) * 5) } :: (assignSeq (c + 1) rs).2)

/-- The family loop of _TranslateTerms: one ConvertToDict pass per concrete
family, sequencing every emitted rule into the shared counter. -/
def translateFamilies (t : PolTerm) (fams : List String) (opts : List String)
    (count : Nat) : Except OcError (Nat × List ACLEntry) :=
  match fams with
  | [] => .ok (count, [])
  | f :: fs =>
    match ConvertToDict t f opts with
    | .error e => .error e
    | .ok rs =>
      match translateFamilies t fs opts (assignSeq count rs).1 with
      | .error e => .error e
      | .ok q => .ok (q.1, (assignSeq count rs).2 ++ q.2)

/-- The term loop of _TranslateTerms: a mixed filter expands every term
against inet then inet6 before moving on; otherwise one pass per term. -/
def translateTerms (terms : List PolTerm) (address_family : String)
    (opts : List String) (count : Nat) : Except OcError (Nat × List ACLEntry) :=
  match terms with
  | [] => .ok (count, [])
  | t :: ts =>
    match translateFamilies t
        (if address_family = "mixed" then ["inet", "inet6"] else [address_family])
        opts count with
    | .error e => .error e
    | .ok p =>
      match translateTerms ts address_family opts p.1 with
      | .error e => .error e
      | .ok q => .ok (q.1, p.2 ++ q.2)

/-- One acl-set record of the output (name, declared type, and the
acl-entries list, which the Python dict nests under a fixed key path). -/
structure ACLSet where
  name : String
  type : String
  entries : List ACLEntry
deriving DecidableEq, Repr

/-- One filter of _TranslatePolicy: scan the family tokens out of the
options, translate the terms, then build the filter's acl-set (FAMILY_MAP
lookup raises KeyError on an unknown family, which extractAF never
produces). -/
def translateFilter (hdr : Header) (terms : List PolTerm) (count : Nat) :
    Except OcError (Nat × ACLSet) :=
  match translateTerms terms (extractAF hdr.filter_options).1
      (extractAF hdr.filter_options).2 count with
  | .error e => .error e
  | .ok q =>
    match FAMILY_MAP (extractAF hdr.filter_options).1 with
    | none => .error (.keyErr (extractAF hdr.filter_options).1)
    | some oc_type => .ok (q.1, ⟨hdr.filter_name, oc_type, q.2⟩)

/-- The filter loop of _TranslatePolicy, threading the run-wide
total_rule_count and accumulating acl_sets in order. -/
def translateFilters (filters : List (Header × List PolTerm)) (count : Nat) :
    Except OcError (Nat × List ACLSet) :=
  match filters with
  | [] => .ok (count, [])
  | (h, ts) :: rest =>
    match translateFilter h ts count with
    | .error e => .error e
    | .ok p =>
      match translateFilters rest p.1 with
      | .error e => .error e
      | .ok q => .ok (q.1, p.2 :: q.2)

/-- OpenConfig._TranslatePolicy: total_rule_count starts at 0 for the call
and is never reset while the filters are processed.  The final logging line
reads the loop variable filter_name, which raises NameError when the policy
has no filters at all. -/
def TranslatePolicy (filters : List (Header × List PolTerm)) :
    Except OcError (Nat × List ACLSet) :=
  if filters.isEmpty then .error .nameErr
  else translateFilters filters 0

/-- All entries of a run's acl-sets, in emission order. -/
def allEntries (sets : List ACLSet) : List ACLEntry :=
  (sets.map (fun s => s.entries)).flatten

/-- An entry with its sequence identifier forgotten, for order-sensitive
comparison of entry contents. -/
def stripSeq (d : ACLEntry) : ACLEntry :=
  { d with sequence_id := none }

/-- Source-port value of an entry (none when the transport block is absent
or holds no source-port). -/
def entrySourcePort (d : ACLEntry) : Option PortVal :=
  (getTransport d).source_port

/-- Destination-port value of an entry (none when the transport block is
absent or holds no destination-port). -/
def entryDestPort (d : ACLEntry) : Option PortVal :=
  (getTransport d).destination_port

/-- Protocol number stored in the entry's family config block. -/
def entryProtocol (family : String) (d : ACLEntry) : Option Nat :=
  (getIP family d).protocol

/-- The number a protocol entry resolves to: integers are used directly,
mnemonics go through the protocol-name map (none when unresolvable). -/
def protoNumOf : ProtoSpec → Option Nat
| .num n => some n
| .str s => PROTO_MAP s

/-- Does the entry's transport config carry the fixed TCP_ESTABLISHED
marker pair? -/
def hasMarkers (d : ACLEntry) : Bool :=
  ((getTransport d).detail_mode == some "BUILTIN") &&
    ((getTransport d).builtin_detail == some "TCP_ESTABLISHED")

/-- The size a match-field list contributes to the expansion product: 1 for
an empty ("any") list, its length otherwise. -/
def dimCount {α : Type} (l : List α) : Nat :=
  if l.isEmpty then 1 else l.length

/-- The sequence identifiers the translator hands out to k consecutive
entries when the running count stands at c: (c+1)*5, (c+2)*5, ... -/
def expectedIds : Nat → Nat → List (Option Nat)
| _, 0 => []
| c, k + 1 => some ((c + 1) * 5) :: expectedIds (c + 1) k

/-- Degenerate accept term: every match-field list empty. -/
def term0 : PolTerm :=
  ⟨"term0", ["accept"], [], [], [], [], [], [], []⟩

/-- Multi-valued term used to exercise the expansion product. -/
def termC1 : PolTerm :=
  ⟨"termC1", ["accept"],
    [⟨4, "10.0.0.0/8"⟩, ⟨4, "172.16.0.0/12"⟩, ⟨6, "2001:db8::/32"⟩], [],
    [(80, 80), (1000, 2000)], [], [ProtoSpec.str "tcp", ProtoSpec.num 17], [], []⟩

def rulesC1 : List ACLEntry :=
  match ConvertToDict termC1 "inet" [] with
  | .ok rs => rs
  | .error _ => []

/-- Two-filter policy exercising the run-wide sequence counter. -/
def polC2 : List (Header × List PolTerm) :=
  [(⟨["inet"], "f1"⟩, [term0, termC1]), (⟨["inet6"], "f2"⟩, [term0])]

def outC2 : Nat × List ACLSet :=
  match TranslatePolicy polC2 with
  | .ok p => p
  | .error _ => (0, [])

/-- Mixed-family filter header and two terms for the interleaving check. -/
def hdrC3 : Header := ⟨["mixed"], "fmix"⟩

def termC3a : PolTerm :=
  ⟨"termC3a", ["accept"],
    [⟨4, "10.1.0.0/16"⟩, ⟨6, "2001:db8::/64"⟩], [], [], [], [], [], []⟩

def termC3b : PolTerm :=
  ⟨"termC3b", ["deny"], [], [], [], [(53, 53)], [], [], []⟩

/-- Rules a term expands to under one family (empty list on failure); used
to name the per-term inet / inet6 expansions of a mixed filter. -/
def convRules (iv : String) (t : PolTerm) : List ACLEntry :=
  match ConvertToDict t iv [] with
  | .ok rs => rs
  | .error _ => []

/-- Terms exercising the tcp-established option handling. -/
def termC4 : PolTerm :=
  ⟨"termC4", ["accept"], [], [], [], [], [ProtoSpec.str "tcp"], ["tcp-established"], []⟩

/-- Term with an unresolvable protocol mnemonic. -/
def termC5 : PolTerm :=
  ⟨"zzterm", ["accept"], [], [], [], [], [ProtoSpec.str "bogus"], [], []⟩

/-- Term with a single numeric protocol. -/
def termC6 : PolTerm :=
  ⟨"termC6", ["accept"], [], [], [], [], [ProtoSpec.num 6], [], []⟩

def rulesC6 : List ACLEntry :=
  match ConvertToDict termC6 "inet" [] with
  | .ok rs => rs
  | .error _ => []

/-- Term with a single mnemonic protocol that the map resolves. -/
def termC6s : PolTerm :=
  ⟨"termC6s", ["accept"], [], [], [], [], [ProtoSpec.str "sctp"], [], []⟩

def rulesC6s : List ACLEntry :=
  match ConvertToDict termC6s "inet" [] with
  | .ok rs => rs
  | .error _ => []

/-- Degenerate term carrying the tcp-established option. -/
def termC7x : PolTerm :=
  ⟨"termC7x", ["accept"], [], [], [], [], [], ["tcp-established"], []⟩

/-- Degenerate term carrying an option the generator does not react to. -/
def termC7 : PolTerm :=
  ⟨"termC7", ["accept"], [], [], [], [], [], ["established"], []⟩

/-- Term mixing a concrete source-port range with the (0, 0) sentinel. -/
def termC8x : PolTerm :=
  ⟨"termC8x", ["accept"], [], [], [(443, 443), (0, 0)], [], [], [], []⟩

/-- Term with one concrete source-port range. -/
def termC8 : PolTerm :=
  ⟨"termC8", ["accept"], [], [], [(1000, 2000)], [], [], [], []⟩

def rulesC8 : List ACLEntry :=
  match ConvertToDict termC8 "inet" [] with
  | .ok rs => rs
  | .error _ => []

/-- Term with one concrete destination-port range. -/
def termC8d : PolTerm :=
  ⟨"termC8d", ["accept"], [], [], [], [(53, 53)], [], [], []⟩

def rulesC8d : List ACLEntry :=
  match ConvertToDict termC8d "inet" [] with
  | .ok rs => rs
  | .error _ => []

/-- One-filter policy whose only entry is the degenerate identity entry. -/
def polC9 : List (Header × List PolTerm) :=
  [(⟨["inet"], "f9"⟩, [term0])]

def outC9 : Nat × List ACLSet :=
  match TranslatePolicy polC9 with
  | .ok p => p
  | .error _ => (0, [])

/-- Term mixing a concrete source-port range with the (0, 0) sentinel, for
the in-place mutation check. -/
def termC10 : PolTerm :=
  ⟨"termC10", ["accept"], [], [], [(80, 80), (0, 0)], [], [], [], []⟩

/-- The entry both expansions of termC10 produce: action plus the
source-port written in the first iteration. -/
def entryC10 : ACLEntry :=
  ⟨some "ACCEPT", none, none, some ⟨some (PortVal.scalar 80), none, none, none⟩, none⟩

/-- Term with the tcp-established option and a non-tcp protocol. -/
def termC4b : PolTerm :=
  ⟨"termC4b", ["accept"], [], [], [], [], [ProtoSpec.str "udp"], ["tcp-established"], []⟩

/-- The entry termC6 expands to: protocol 6 sits inside the ipv4 config
block; the entry has no transport block at all. -/
def entryC6 : ACLEntry :=
  ⟨some "ACCEPT", some ⟨none, none, some 6⟩, none, none, none⟩

/-- The entry emitted for both source-port iterations of termC8x: the
(0, 0) sentinel iteration still carries source-port 443. -/
def entryC8 : ACLEntry :=
  ⟨some "ACCEPT", none, none, some ⟨some (PortVal.scalar 443), none, none, none⟩, none⟩

/-- The entry termC8 expands to: source-port stored as the 1000..2000
range value. -/
def entryC8w : ACLEntry :=
  ⟨some "ACCEPT", none, none, some ⟨some (PortVal.interval 1000 2000), none, none, none⟩, none⟩

/-- The entry termC8d expands to: destination-port stored as the scalar 53. -/
def entryC8d : ACLEntry :=
  ⟨some "ACCEPT", none, none, some ⟨none, some (PortVal.scalar 53), none, none⟩, none⟩

/-- The entry termC6s expands to: sctp resolved to 132, stored in the ipv4
config block. -/
def entryC6s : ACLEntry :=
  ⟨some "ACCEPT", some ⟨none, none, some 132⟩, none, none, none⟩

/-- The single entry of polC9's translation: sequence-id 5 and no
address-family block at all. -/
def entryC9 : ACLEntry :=
  ⟨some "ACCEPT", none, none, none, some 5⟩

theorem anySub_length (l : List String) : (anySub l).length = dimCount l := by
  unfold anySub dimCount
  split
  · rfl
  · simp

theorem portSub_length (l : List (Nat × Nat)) : (portSub l).length = dimCount l := by
  unfold portSub dimCount
  split
  · rfl
  · rfl

theorem protoSub_length (l : List ProtoSpec) : (protoSub l).length = dimCount l := by
  unfold protoSub dimCount
  split
  · rfl
  · rfl

theorem AF_MAP_cases {iv : String} {af : Nat} (h : AF_MAP iv = some af) :
    (iv = "inet" ∧ af = 4) ∨ (iv = "inet6" ∧ af = 6) := by
  unfold AF_MAP at h
  split at h <;> simp_all

theorem AF_RENAME_of_MAP {iv : String} {af : Nat} (h : AF_MAP iv = some af) :
    ∃ fam, AF_RENAME af = some fam ∧ (fam = "ipv4" ∨ fam = "ipv6") := by
  rcases AF_MAP_cases h with ⟨_, h4⟩ | ⟨_, h6⟩
  · exact ⟨"ipv4", by simp [h4, AF_RENAME]⟩
  · exact ⟨"ipv6", by simp [h6, AF_RENAME]⟩

theorem ConvertToDict_eq_core {t : PolTerm} {iv : String} {af : Nat} {fam : String}
    (fo : List String) (haf : AF_MAP iv = some af) (hren : AF_RENAME af = some fam) :
    ConvertToDict t iv fo = convertCore t af fam := by
  simp only [ConvertToDict, haf, hren]

theorem convertCore_ok {t : PolTerm} {af : Nat} {fam : String} {rules : List ACLEntry}
    (h : convertCore t af fam = .ok rules) :
    ∃ d0 d1 dfin,
      SetAction t emptyEntry = .ok d0 ∧ SetOptions t d0 = .ok d1 ∧
      runSaddrs fam (anySub (GetAddressOfVersion t.flattened_saddr af))
        (anySub (GetAddressOfVersion t.flattened_daddr af))
        (portSub t.source_port) (portSub t.destination_port)
        (protoSub t.protocol) d1 [] = .ok (dfin, rules) := by
  unfold convertCore at h
  split at h
  · simp at h
  next d0 hA =>
    split at h
    · simp at h
    next d1 hO =>
      split at h
      · simp at h
      next dfin rules1 hR =>
        simp at h
        exact ⟨d0, d1, dfin, hA, hO, by rw [hR, h]⟩

theorem runProtos_length (family : String) :
    ∀ (ps : List ProtoSpec) (d : ACLEntry) (rules : List ACLEntry)
      (d2 : ACLEntry) (rules2 : List ACLEntry),
      runProtos family ps d rules = .ok (d2, rules2) →
      rules2.length = rules.length + ps.length := by
  intro ps
  induction ps with
  | nil =>
    intro d rules d2 rules2 h
    simp [runProtos] at h
    simp [h.2.symm]
  | cons p ps ih =>
    intro d rules d2 rules2 h
    rw [runProtos] at h
    cases hre : resolveProto family p d with
    | error e => rw [hre] at h; simp at h
    | ok d1 =>
      rw [hre] at h
      have := ih d1 (rules ++ [d1]) d2 rules2 h
      simp at this
      simp [this]
      omega

theorem runDports_length (family : String) (ps : List ProtoSpec) :
    ∀ (dports : List (Nat × Nat)) (d : ACLEntry) (rules : List ACLEntry)
      (d2 : ACLEntry) (rules2 : List ACLEntry),
      runDports family dports ps d rules = .ok (d2, rules2) →
      rules2.length = rules.length + dports.length * ps.length := by
  intro dports
  induction dports with
  | nil =>
    intro d rules d2 rules2 h
    simp [runDports] at h
    simp [h.2.symm]
  | cons se rest ih =>
    obtain ⟨s, e⟩ := se
    intro d rules d2 rules2 h
    rw [runDports] at h
    cases hrp : runProtos family ps (if s = e ∧ e = 0 then d else SetDestPorts s e d) rules with
    | error er => rw [hrp] at h; simp at h
    | ok pr =>
      rw [hrp] at h
      have h1 := runProtos_length family ps _ _ _ _ hrp
      have h2 := ih pr.1 pr.2 d2 rules2 h
      simp [List.length_cons, Nat.succ_mul]
      omega

theorem runSports_length (family : String) (dports : List (Nat × Nat)) (ps : List ProtoSpec) :
    ∀ (sports : List (Nat × Nat)) (d : ACLEntry) (rules : List ACLEntry)
      (d2 : ACLEntry) (rules2 : List ACLEntry),
      runSports family sports dports ps d rules = .ok (d2, rules2) →
      rules2.length = rules.length + sports.length * (dports.length * ps.length) := by
  intro sports
  induction sports with
  | nil =>
    intro d rules d2 rules2 h
    simp [runSports] at h
    simp [h.2.symm]
  | cons se rest ih =>
    obtain ⟨s, e⟩ := se
    intro d rules d2 rules2 h
    rw [runSports] at h
    cases hrp : runDports family dports ps (if s = e ∧ e = 0 then d else SetSourcePorts s e d) rules with
    | error er => rw [hrp] at h; simp at h
    | ok pr =>
      rw [hrp] at h
      have h1 := runDports_length family ps dports _ _ _ _ hrp
      have h2 := ih pr.1 pr.2 d2 rules2 h
      simp [List.length_cons, Nat.succ_mul]
      omega

theorem runDaddrs_length (family : String) (sports dports : List (Nat × Nat))
    (ps : List ProtoSpec) :
    ∀ (daddrs : List (Option String)) (d : ACLEntry) (rules : List ACLEntry)
      (d2 : ACLEntry) (rules2 : List ACLEntry),
      runDaddrs family daddrs sports dports ps d rules = .ok (d2, rules2) →
      rules2.length = rules.length +
        daddrs.length * (sports.length * (dports.length * ps.length)) := by
  intro daddrs
  induction daddrs with
  | nil =>
    intro d rules d2 rules2 h
    simp [runDaddrs] at h
    simp [h.2.symm]
  | cons da rest ih =>
    intro d rules d2 rules2 h
    rw [runDaddrs] at h
    generalize (da.elim d (fun a => SetDestAddress family a d)) = d1 at h
    cases hrp : runSports family sports dports ps d1 rules with
    | error er => rw [hrp] at h; simp at h
    | ok pr =>
      rw [hrp] at h
      have h1 := runSports_length family dports ps sports _ _ _ _ hrp
      have h2 := ih pr.1 pr.2 d2 rules2 h
      simp [List.length_cons, Nat.succ_mul]
      omega

theorem runSaddrs_length (family : String) (daddrs : List (Option String))
    (sports dports : List (Nat × Nat)) (ps : List ProtoSpec) :
    ∀ (saddrs : List (Option String)) (d : ACLEntry) (rules : List ACLEntry)
      (d2 : ACLEntry) (rules2 : List ACLEntry),
      runSaddrs family saddrs daddrs sports dports ps d rules = .ok (d2, rules2) →
      rules2.length = rules.length +
        saddrs.length * (daddrs.length * (sports.length * (dports.length * ps.length))) := by
  intro saddrs
  induction saddrs with
  | nil =>
    intro d rules d2 rules2 h
    simp [runSaddrs] at h
    simp [h.2.symm]
  | cons sa rest ih =>
    intro d rules d2 rules2 h
    rw [runSaddrs] at h
    generalize (sa.elim d (fun a => SetSourceAddress family a d)) = d1 at h
    cases hrp : runDaddrs family daddrs sports dports ps d1 rules with
    | error er => rw [hrp] at h; simp at h
    | ok pr =>
      rw [hrp] at h
      have h1 := runDaddrs_length family sports dports ps daddrs _ _ _ _ hrp
      have h2 := ih pr.1 pr.2 d2 rules2 h
      simp [List.length_cons, Nat.succ_mul]
      omega

section InvChain

variable (P : ACLEntry → Prop)

theorem runProtos_inv (family : String) :
    ∀ (ps : List ProtoSpec) (d : ACLEntry) (rules : List ACLEntry)
      (d2 : ACLEntry) (rules2 : List ACLEntry),
      runProtos family ps d rules = .ok (d2, rules2) →
      (∀ p ∈ ps, ∀ x y, resolveProto family p x = .ok y → P x → P y) →
      P d → P d2 ∧ ∀ r ∈ rules2, r ∈ rules ∨ P r := by
  intro ps
  induction ps with
  | nil =>
    intro d rules d2 rules2 h hres hd
    simp [runProtos] at h
    rw [← h.1, ← h.2]
    exact ⟨hd, fun r hr => Or.inl hr⟩
  | cons p ps ih =>
    intro d rules d2 rules2 h hres hd
    rw [runProtos] at h
    cases hre : resolveProto family p d with
    | error e => rw [hre] at h; simp at h
    | ok d1 =>
      rw [hre] at h
      have hP1 : P d1 := hres p (by simp) d d1 hre hd
      obtain ⟨hd2, hall⟩ :=
        ih d1 (rules ++ [d1]) d2 rules2 h (fun q hq => hres q (by simp [hq])) hP1
      refine ⟨hd2, fun r hr => ?_⟩
      rcases hall r hr with h1 | h1
      · rcases List.mem_append.mp h1 with h2 | h2
        · exact Or.inl h2
        · simp at h2
          rw [h2]
          exact Or.inr hP1
      · exact Or.inr h1

theorem runDports_inv (family : String) (ps : List ProtoSpec)
    (hres : ∀ p ∈ ps, ∀ x y, resolveProto family p x = .ok y → P x → P y) :
    ∀ (dports : List (Nat × Nat)) (d : ACLEntry) (rules : List ACLEntry)
      (d2 : ACLEntry) (rules2 : List ACLEntry),
      runDports family dports ps d rules = .ok (d2, rules2) →
      (∀ se ∈ dports, ¬(se.1 = se.2 ∧ se.2 = 0) →
        ∀ x, P x → P (SetDestPorts se.1 se.2 x)) →
      P d → P d2 ∧ ∀ r ∈ rules2, r ∈ rules ∨ P r := by
  intro dports
  induction dports with
  | nil =>
    intro d rules d2 rules2 h hdp hd
    simp [runDports] at h
    rw [← h.1, ← h.2]
    exact ⟨hd, fun r hr => Or.inl hr⟩
  | cons se rest ih =>
    obtain ⟨s, e⟩ := se
    intro d rules d2 rules2 h hdp hd
    rw [runDports] at h
    have hP1 : P (if s = e ∧ e = 0 then d else SetDestPorts s e d) := by
      split
      · exact hd
      next hne => exact hdp (s, e) (by simp) hne d hd
    cases hrp : runProtos family ps (if s = e ∧ e = 0 then d else SetDestPorts s e d) rules with
    | error er => rw [hrp] at h; simp at h
    | ok pr =>
      rw [hrp] at h
      obtain ⟨hq, hqall⟩ := runProtos_inv P family ps _ _ _ _ hrp hres hP1
      obtain ⟨hd2, hall⟩ := ih pr.1 pr.2 d2 rules2 h
        (fun q hq' hne x hx => hdp q (by simp [hq']) hne x hx) hq
      refine ⟨hd2, fun r hr => ?_⟩
      rcases hall r hr with h1 | h1
      · exact hqall r h1
      · exact Or.inr h1

theorem runSports_inv (family : String) (dports : List (Nat × Nat)) (ps : List ProtoSpec)
    (hres : ∀ p ∈ ps, ∀ x y, resolveProto family p x = .ok y → P x → P y)
    (hdp : ∀ se ∈ dports, ¬(se.1 = se.2 ∧ se.2 = 0) →
      ∀ x, P x → P (SetDestPorts se.1 se.2 x)) :
    ∀ (sports : List (Nat × Nat)) (d : ACLEntry) (rules : List ACLEntry)
      (d2 : ACLEntry) (rules2 : List ACLEntry),
      runSports family sports dports ps d rules = .ok (d2, rules2) →
      (∀ se ∈ sports, ¬(se.1 = se.2 ∧ se.2 = 0) →
        ∀ x, P x → P (SetSourcePorts se.1 se.2 x)) →
      P d → P d2 ∧ ∀ r ∈ rules2, r ∈ rules ∨ P r := by
  intro sports
  induction sports with
  | nil =>
    intro d rules d2 rules2 h hsp hd
    simp [runSports] at h
    rw [← h.1, ← h.2]
    exact ⟨hd, fun r hr => Or.inl hr⟩
  | cons se rest ih =>
    obtain ⟨s, e⟩ := se
    intro d rules d2 rules2 h hsp hd
    rw [runSports] at h
    have hP1 : P (if s = e ∧ e = 0 then d else SetSourcePorts s e d) := by
      split
      · exact hd
      next hne => exact hsp (s, e) (by simp) hne d hd
    cases hrp : runDports family dports ps (if s = e ∧ e = 0 then d else SetSourcePorts s e d) rules with
    | error er => rw [hrp] at h; simp at h
    | ok pr =>
      rw [hrp] at h
      obtain ⟨hq, hqall⟩ := runDports_inv P family ps hres dports _ _ _ _ hrp hdp hP1
      obtain ⟨hd2, hall⟩ := ih pr.1 pr.2 d2 rules2 h
        (fun q hq' hne x hx => hsp q (by simp [hq']) hne x hx) hq
      refine ⟨hd2, fun r hr => ?_⟩
      rcases hall r hr with h1 | h1
      · exact hqall r h1
      · exact Or.inr h1

theorem runDaddrs_inv (family : String) (sports dports : List (Nat × Nat)) (ps : List ProtoSpec)
    (hres : ∀ p ∈ ps, ∀ x y, resolveProto family p x = .ok y → P x → P y)
    (hdp : ∀ se ∈ dports, ¬(se.1 = se.2 ∧ se.2 = 0) →
      ∀ x, P x → P (SetDestPorts se.1 se.2 x))
    (hsp : ∀ se ∈ sports, ¬(se.1 = se.2 ∧ se.2 = 0) →
      ∀ x, P x → P (SetSourcePorts se.1 se.2 x))
    (hda : ∀ a x, P x → P (SetDestAddress family a x)) :
    ∀ (daddrs : List (Option String)) (d : ACLEntry) (rules : List ACLEntry)
      (d2 : ACLEntry) (rules2 : List ACLEntry),
      runDaddrs family daddrs sports dports ps d rules = .ok (d2, rules2) →
      P d → P d2 ∧ ∀ r ∈ rules2, r ∈ rules ∨ P r := by
  intro daddrs
  induction daddrs with
  | nil =>
    intro d rules d2 rules2 h hd
    simp [runDaddrs] at h
    rw [← h.1, ← h.2]
    exact ⟨hd, fun r hr => Or.inl hr⟩
  | cons da rest ih =>
    intro d rules d2 rules2 h hd
    rw [runDaddrs] at h
    have hP1 : P (da.elim d (fun a => SetDestAddress family a d)) := by
      cases da with
      | none => exact hd
      | some a => exact hda a d hd
    generalize hgen : (da.elim d (fun a => SetDestAddress family a d)) = d1 at h hP1
    cases hrp : runSports family sports dports ps d1 rules with
    | error er => rw [hrp] at h; simp at h
    | ok pr =>
      rw [hrp] at h
      obtain ⟨hq, hqall⟩ := runSports_inv P family dports ps hres hdp sports _ _ _ _ hrp hsp hP1
      obtain ⟨hd2, hall⟩ := ih pr.1 pr.2 d2 rules2 h hq
      refine ⟨hd2, fun r hr => ?_⟩
      rcases hall r hr with h1 | h1
      · exact hqall r h1
      · exact Or.inr h1

theorem runSaddrs_inv (family : String) (daddrs : List (Option String))
    (sports dports : List (Nat × Nat)) (ps : List ProtoSpec)
    (hres : ∀ p ∈ ps, ∀ x y, resolveProto family p x = .ok y → P x → P y)
    (hdp : ∀ se ∈ dports, ¬(se.1 = se.2 ∧ se.2 = 0) →
      ∀ x, P x → P (SetDestPorts se.1 se.2 x))
    (hsp : ∀ se ∈ sports, ¬(se.1 = se.2 ∧ se.2 = 0) →
      ∀ x, P x → P (SetSourcePorts se.1 se.2 x))
    (hda : ∀ a x, P x → P (SetDestAddress family a x))
    (hsa : ∀ a x, P x → P (SetSourceAddress family a x)) :
    ∀ (saddrs : List (Option String)) (d : ACLEntry) (rules : List ACLEntry)
      (d2 : ACLEntry) (rules2 : List ACLEntry),
      runSaddrs family saddrs daddrs sports dports ps d rules = .ok (d2, rules2) →
      P d → P d2 ∧ ∀ r ∈ rules2, r ∈ rules ∨ P r := by
  intro saddrs
  induction saddrs with
  | nil =>
    intro d rules d2 rules2 h hd
    simp [runSaddrs] at h
    rw [← h.1, ← h.2]
    exact ⟨hd, fun r hr => Or.inl hr⟩
  | cons sa rest ih =>
    intro d rules d2 rules2 h hd
    rw [runSaddrs] at h
    have hP1 : P (sa.elim d (fun a => SetSourceAddress family a d)) := by
      cases sa with
      | none => exact hd
      | some a => exact hsa a d hd
    generalize hgen : (sa.elim d (fun a => SetSourceAddress family a d)) = d1 at h hP1
    cases hrp : runDaddrs family daddrs sports dports ps d1 rules with
    | error er => rw [hrp] at h; simp at h
    | ok pr =>
      rw [hrp] at h
      obtain ⟨hq, hqall⟩ :=
        runDaddrs_inv P family sports dports ps hres hdp hsp hda daddrs _ _ _ _ hrp hP1
      obtain ⟨hd2, hall⟩ := ih pr.1 pr.2 d2 rules2 h hq
      refine ⟨hd2, fun r hr => ?_⟩
      rcases hall r hr with h1 | h1
      · exact hqall r h1
      · exact Or.inr h1

end InvChain

section NewChain

variable (Q : ACLEntry → Prop)

theorem runProtos_new (family : String) (ps : List ProtoSpec)
    (hres : ∀ p ∈ ps, ∀ x y, resolveProto family p x = .ok y → Q y) :
    ∀ (d : ACLEntry) (rules : List ACLEntry) (d2 : ACLEntry) (rules2 : List ACLEntry),
      runProtos family ps d rules = .ok (d2, rules2) →
      ∀ r ∈ rules2, r ∈ rules ∨ Q r := by
  induction ps with
  | nil =>
    intro d rules d2 rules2 h r hr
    simp [runProtos] at h
    rw [h.2]
    exact Or.inl hr
  | cons p ps ih =>
    intro d rules d2 rules2 h r hr
    rw [runProtos] at h
    cases hre : resolveProto family p d with
    | error e => rw [hre] at h; simp at h
    | ok d1 =>
      rw [hre] at h
      rcases ih (fun q hq => hres q (by simp [hq])) d1 (rules ++ [d1]) d2 rules2 h r hr with h1 | h1
      · rcases List.mem_append.mp h1 with h2 | h2
        · exact Or.inl h2
        · simp at h2
          rw [h2]
          exact Or.inr (hres p (by simp) d d1 hre)
      · exact Or.inr h1

theorem runDports_new (family : String) (ps : List ProtoSpec)
    (H : ∀ (d : ACLEntry) (rules : List ACLEntry) (d2 : ACLEntry) (rules2 : List ACLEntry),
      runProtos family ps d rules = .ok (d2, rules2) → ∀ r ∈ rules2, r ∈ rules ∨ Q r) :
    ∀ (dports : List (Nat × Nat)) (d : ACLEntry) (rules : List ACLEntry)
      (d2 : ACLEntry) (rules2 : List ACLEntry),
      runDports family dports ps d rules = .ok (d2, rules2) →
      ∀ r ∈ rules2, r ∈ rules ∨ Q r := by
  intro dports
  induction dports with
  | nil =>
    intro d rules d2 rules2 h r hr
    simp [runDports] at h
    rw [h.2]
    exact Or.inl hr
  | cons se rest ih =>
    obtain ⟨s, e⟩ := se
    intro d rules d2 rules2 h r hr
    rw [runDports] at h
    cases hrp : runProtos family ps (if s = e ∧ e = 0 then d else SetDestPorts s e d) rules with
    | error er => rw [hrp] at h; simp at h
    | ok pr =>
      rw [hrp] at h
      rcases ih pr.1 pr.2 d2 rules2 h r hr with h1 | h1
      · exact H _ _ _ _ hrp r h1
      · exact Or.inr h1

theorem runSports_new (family : String) (dports : List (Nat × Nat)) (ps : List ProtoSpec)
    (H : ∀ (d : ACLEntry) (rules : List ACLEntry) (d2 : ACLEntry) (rules2 : List ACLEntry),
      runDports family dports ps d rules = .ok (d2, rules2) → ∀ r ∈ rules2, r ∈ rules ∨ Q r) :
    ∀ (sports : List (Nat × Nat)) (d : ACLEntry) (rules : List ACLEntry)
      (d2 : ACLEntry) (rules2 : List ACLEntry),
      runSports family sports dports ps d rules = .ok (d2, rules2) →
      ∀ r ∈ rules2, r ∈ rules ∨ Q r := by
  intro sports
  induction sports with
  | nil =>
    intro d rules d2 rules2 h r hr
    simp [runSports] at h
    rw [h.2]
    exact Or.inl hr
  | cons se rest ih =>
    obtain ⟨s, e⟩ := se
    intro d rules d2 rules2 h r hr
    rw [runSports] at h
    cases hrp : runDports family dports ps (if s = e ∧ e = 0 then d else SetSourcePorts s e d) rules with
    | error er => rw [hrp] at h; simp at h
    | ok pr =>
      rw [hrp] at h
      rcases ih pr.1 pr.2 d2 rules2 h r hr with h1 | h1
      · exact H _ _ _ _ hrp r h1
      · exact Or.inr h1

theorem runDaddrs_new (family : String) (sports dports : List (Nat × Nat)) (ps : List ProtoSpec)
    (H : ∀ (d : ACLEntry) (rules : List ACLEntry) (d2 : ACLEntry) (rules2 : List ACLEntry),
      runSports family sports dports ps d rules = .ok (d2, rules2) → ∀ r ∈ rules2, r ∈ rules ∨ Q r) :
    ∀ (daddrs : List (Option String)) (d : ACLEntry) (rules : List ACLEntry)
      (d2 : ACLEntry) (rules2 : List ACLEntry),
      runDaddrs family daddrs sports dports ps d rules = .ok (d2, rules2) →
      ∀ r ∈ rules2, r ∈ rules ∨ Q r := by
  intro daddrs
  induction daddrs with
  | nil =>
    intro d rules d2 rules2 h r hr
    simp [runDaddrs] at h
    rw [h.2]
    exact Or.inl hr
  | cons da rest ih =>
    intro d rules d2 rules2 h r hr
    rw [runDaddrs] at h
    generalize (da.elim d (fun a => SetDestAddress family a d)) = d1 at h
    cases hrp : runSports family sports dports ps d1 rules with
    | error er => rw [hrp] at h; simp at h
    | ok pr =>
      rw [hrp] at h
      rcases ih pr.1 pr.2 d2 rules2 h r hr with h1 | h1
      · exact H _ _ _ _ hrp r h1
      · exact Or.inr h1

theorem runSaddrs_new (family : String) (daddrs : List (Option String))
    (sports dports : List (Nat × Nat)) (ps : List ProtoSpec)
    (H : ∀ (d : ACLEntry) (rules : List ACLEntry) (d2 : ACLEntry) (rules2 : List ACLEntry),
      runDaddrs family daddrs sports dports ps d rules = .ok (d2, rules2) →
      ∀ r ∈ rules2, r ∈ rules ∨ Q r) :
    ∀ (saddrs : List (Option String)) (d : ACLEntry) (rules : List ACLEntry)
      (d2 : ACLEntry) (rules2 : List ACLEntry),
      runSaddrs family saddrs daddrs sports dports ps d rules = .ok (d2, rules2) →
      ∀ r ∈ rules2, r ∈ rules ∨ Q r := by
  intro saddrs
  induction saddrs with
  | nil =>
    intro d rules d2 rules2 h r hr
    simp [runSaddrs] at h
    rw [h.2]
    exact Or.inl hr
  | cons sa rest ih =>
    intro d rules d2 rules2 h r hr
    rw [runSaddrs] at h
    generalize (sa.elim d (fun a => SetSourceAddress family a d)) = d1 at h
    cases hrp : runDaddrs family daddrs sports dports ps d1 rules with
    | error er => rw [hrp] at h; simp at h
    | ok pr =>
      rw [hrp] at h
      rcases ih pr.1 pr.2 d2 rules2 h r hr with h1 | h1
      · exact H _ _ _ _ hrp r h1
      · exact Or.inr h1

end NewChain

theorem runProtos_err_mem (family : String) :
    ∀ (ps : List ProtoSpec) (s : String), ProtoSpec.str s ∈ ps → s ≠ "none" →
      PROTO_MAP s = none →
      ∃ tok, PROTO_MAP tok = none ∧ tok ≠ "none" ∧ ProtoSpec.str tok ∈ ps ∧
        ∀ (d : ACLEntry) (rules : List ACLEntry),
          runProtos family ps d rules = .error (.ocFirewall tok) := by
  intro ps
  induction ps with
  | nil => intro s hmem; simp at hmem
  | cons p ps ih =>
    intro s hmem hs hmap
    cases p with
    | str t0 =>
      by_cases ht : t0 = "none"
      · have hmem' : ProtoSpec.str s ∈ ps := by
          rcases List.mem_cons.mp hmem with h1 | h1
          · cases h1; exact absurd ht hs
          · exact h1
        obtain ⟨tok, h1, h2, h3, h4⟩ := ih s hmem' hs hmap
        refine ⟨tok, h1, h2, by simp [h3], fun d rules => ?_⟩
        rw [runProtos]
        have : resolveProto family (ProtoSpec.str t0) d = .ok d := by
          simp [resolveProto, ht]
        rw [this]
        exact h4 d (rules ++ [d])
      · cases hm0 : PROTO_MAP t0 with
        | none =>
          refine ⟨t0, hm0, ht, by simp, fun d rules => ?_⟩
          rw [runProtos]
          have : resolveProto family (ProtoSpec.str t0) d = .error (.ocFirewall t0) := by
            simp [resolveProto, ht, hm0]
          rw [this]
        | some n =>
          have hmem' : ProtoSpec.str s ∈ ps := by
            rcases List.mem_cons.mp hmem with h1 | h1
            · cases h1; rw [hmap] at hm0; exact absurd hm0 (by simp)
            · exact h1
          obtain ⟨tok, h1, h2, h3, h4⟩ := ih s hmem' hs hmap
          refine ⟨tok, h1, h2, by simp [h3], fun d rules => ?_⟩
          rw [runProtos]
          have : resolveProto family (ProtoSpec.str t0) d = .ok (SetProtocol family n d) := by
            simp [resolveProto, ht, hm0]
          rw [this]
          exact h4 _ _
    | num n =>
      have hmem' : ProtoSpec.str s ∈ ps := by
        rcases List.mem_cons.mp hmem with h1 | h1
        · simp at h1
        · exact h1
      obtain ⟨tok, h1, h2, h3, h4⟩ := ih s hmem' hs hmap
      refine ⟨tok, h1, h2, by simp [h3], fun d rules => ?_⟩
      rw [runProtos]
      have : resolveProto family (ProtoSpec.num n) d = .ok (SetProtocol family n d) := by
        simp [resolveProto]
      rw [this]
      exact h4 _ _

theorem runDports_err (family : String) (ps : List ProtoSpec) (er : OcError)
    (H : ∀ (d : ACLEntry) (rules : List ACLEntry), runProtos family ps d rules = .error er) :
    ∀ (dports : List (Nat × Nat)) (d : ACLEntry) (rules : List ACLEntry), dports ≠ [] →
      runDports family dports ps d rules = .error er := by
  intro dports d rules hne
  cases dports with
  | nil => exact absurd rfl hne
  | cons se rest =>
    obtain ⟨s, e⟩ := se
    rw [runDports, H]

theorem runSports_err (family : String) (dports : List (Nat × Nat)) (ps : List ProtoSpec)
    (er : OcError) (hdne : dports ≠ [])
    (H : ∀ (d : ACLEntry) (rules : List ACLEntry), runProtos family ps d rules = .error er) :
    ∀ (sports : List (Nat × Nat)) (d : ACLEntry) (rules : List ACLEntry), sports ≠ [] →
      runSports family sports dports ps d rules = .error er := by
  intro sports d rules hne
  cases sports with
  | nil => exact absurd rfl hne
  | cons se rest =>
    obtain ⟨s, e⟩ := se
    rw [runSports, runDports_err family ps er H dports _ _ hdne]

theorem runDaddrs_err (family : String) (sports dports : List (Nat × Nat))
    (ps : List ProtoSpec) (er : OcError) (hsne : sports ≠ []) (hdne : dports ≠ [])
    (H : ∀ (d : ACLEntry) (rules : List ACLEntry), runProtos family ps d rules = .error er) :
    ∀ (daddrs : List (Option String)) (d : ACLEntry) (rules : List ACLEntry), daddrs ≠ [] →
      runDaddrs family daddrs sports dports ps d rules = .error er := by
  intro daddrs d rules hne
  cases daddrs with
  | nil => exact absurd rfl hne
  | cons da rest =>
    rw [runDaddrs, runSports_err family dports ps er hdne H sports _ _ hsne]

theorem runSaddrs_err (family : String) (daddrs : List (Option String))
    (sports dports : List (Nat × Nat)) (ps : List ProtoSpec) (er : OcError)
    (hdane : daddrs ≠ []) (hsne : sports ≠ []) (hdne : dports ≠ [])
    (H : ∀ (d : ACLEntry) (rules : List ACLEntry), runProtos family ps d rules = .error er) :
    ∀ (saddrs : List (Option String)) (d : ACLEntry) (rules : List ACLEntry), saddrs ≠ [] →
      runSaddrs family saddrs daddrs sports dports ps d rules = .error er := by
  intro saddrs d rules hne
  cases saddrs with
  | nil => exact absurd rfl hne
  | cons sa rest =>
    rw [runSaddrs, runDaddrs_err family sports dports ps er hsne hdne H daddrs _ _ hdane]

theorem anySub_ne (l : List String) : anySub l ≠ [] := by
  unfold anySub
  split
  · simp
  next h => simp [List.isEmpty_iff] at h; simp [h]

theorem portSub_ne (l : List (Nat × Nat)) : portSub l ≠ [] := by
  unfold portSub
  split
  · simp
  next h => simp [List.isEmpty_iff] at h; simp [h]

theorem protoSub_ne (l : List ProtoSpec) : protoSub l ≠ [] := by
  unfold protoSub
  split
  · simp
  next h => simp [List.isEmpty_iff] at h; simp [h]

theorem putIP_transport (fam : String) (c : IPConfig) (d : ACLEntry) :
    (putIP fam c d).transport = d.transport := by
  unfold putIP
  split <;> rfl

theorem putIP_actions (fam : String) (c : IPConfig) (d : ACLEntry) :
    (putIP fam c d).actions = d.actions := by
  unfold putIP
  split <;> rfl

theorem SetSourceAddress_transport (fam a : String) (d : ACLEntry) :
    (SetSourceAddress fam a d).transport = d.transport :=
  putIP_transport fam _ d

theorem SetDestAddress_transport (fam a : String) (d : ACLEntry) :
    (SetDestAddress fam a d).transport = d.transport :=
  putIP_transport fam _ d

theorem SetProtocol_transport (fam : String) (n : Nat) (d : ACLEntry) :
    (SetProtocol fam n d).transport = d.transport :=
  putIP_transport fam _ d

theorem getTransport_SetSourcePorts (s e : Nat) (d : ACLEntry) :
    getTransport (SetSourcePorts s e d) =
      { getTransport d with
          source_port := some (if s = e then PortVal.scalar s else PortVal.interval s e) } := rfl

theorem getTransport_SetDestPorts (s e : Nat) (d : ACLEntry) :
    getTransport (SetDestPorts s e d) =
      { getTransport d with
          destination_port := some (if s = e then PortVal.scalar s else PortVal.interval s e) } := rfl

theorem SetSourcePorts_ip (s e : Nat) (d : ACLEntry) :
    (SetSourcePorts s e d).ipv4 = d.ipv4 ∧ (SetSourcePorts s e d).ipv6 = d.ipv6 :=
  ⟨rfl, rfl⟩

theorem SetDestPorts_ip (s e : Nat) (d : ACLEntry) :
    (SetDestPorts s e d).ipv4 = d.ipv4 ∧ (SetDestPorts s e d).ipv6 = d.ipv6 :=
  ⟨rfl, rfl⟩

theorem hasMarkers_getTransport (d d' : ACLEntry)
    (h : (getTransport d').detail_mode = (getTransport d).detail_mode)
    (h' : (getTransport d').builtin_detail = (getTransport d).builtin_detail) :
    hasMarkers d' = hasMarkers d := by
  unfold hasMarkers
  rw [h, h']

theorem hasMarkers_transport_eq {d d' : ACLEntry} (h : d'.transport = d.transport) :
    hasMarkers d' = hasMarkers d := by
  unfold hasMarkers getTransport
  rw [h]

theorem hasMarkers_SetSourcePorts (s e : Nat) (d : ACLEntry) :
    hasMarkers (SetSourcePorts s e d) = hasMarkers d :=
  hasMarkers_getTransport d _ (by rw [getTransport_SetSourcePorts]) (by rw [getTransport_SetSourcePorts])

theorem hasMarkers_SetDestPorts (s e : Nat) (d : ACLEntry) :
    hasMarkers (SetDestPorts s e d) = hasMarkers d :=
  hasMarkers_getTransport d _ (by rw [getTransport_SetDestPorts]) (by rw [getTransport_SetDestPorts])

theorem entrySourcePort_transport_eq {d d' : ACLEntry} (h : d'.transport = d.transport) :
    entrySourcePort d' = entrySourcePort d := by
  unfold entrySourcePort getTransport
  rw [h]

theorem entrySourcePort_SetSourcePorts (s e : Nat) (d : ACLEntry) :
    entrySourcePort (SetSourcePorts s e d) =
      some (if s = e then PortVal.scalar s else PortVal.interval s e) := by
  unfold entrySourcePort
  rw [getTransport_SetSourcePorts]

theorem entrySourcePort_SetDestPorts (s e : Nat) (d : ACLEntry) :
    entrySourcePort (SetDestPorts s e d) = entrySourcePort d := by
  unfold entrySourcePort
  rw [getTransport_SetDestPorts]

theorem entryProtocol_SetProtocol (fam : String) (n : Nat) (d : ACLEntry) :
    entryProtocol fam (SetProtocol fam n d) = some n := by
  by_cases hf : fam = "ipv4" <;> simp [entryProtocol, SetProtocol, getIP, putIP, hf]

theorem getIP_SetSourcePorts (fam : String) (s e : Nat) (d : ACLEntry) :
    getIP fam (SetSourcePorts s e d) = getIP fam d := by
  unfold getIP SetSourcePorts
  split <;> rfl

theorem getIP_SetDestPorts (fam : String) (s e : Nat) (d : ACLEntry) :
    getIP fam (SetDestPorts s e d) = getIP fam d := by
  unfold getIP SetDestPorts
  split <;> rfl

theorem resolveProto_ok_cases {fam : String} {p : ProtoSpec} {x y : ACLEntry}
    (h : resolveProto fam p x = .ok y) :
    y = x ∨ ∃ n, y = SetProtocol fam n x := by
  cases p with
  | str s =>
    by_cases hs : s = "none"
    · simp [resolveProto, hs] at h
      exact Or.inl h.symm
    · cases hm : PROTO_MAP s with
      | none => simp [resolveProto, hs, hm] at h
      | some n =>
        simp [resolveProto, hs, hm] at h
        exact Or.inr ⟨n, h.symm⟩
  | num n =>
    simp [resolveProto] at h
    exact Or.inr ⟨n, h.symm⟩

theorem resolveProto_num (fam : String) (n : Nat) (x : ACLEntry) :
    resolveProto fam (ProtoSpec.num n) x = .ok (SetProtocol fam n x) := rfl

theorem resolveProto_str_ok {fam s : String} {n : Nat} (hs : s ≠ "none")
    (hm : PROTO_MAP s = some n) (x : ACLEntry) :
    resolveProto fam (ProtoSpec.str s) x = .ok (SetProtocol fam n x) := by
  simp [resolveProto, hs, hm]

theorem SetOptions_ok_cases {t : PolTerm} {d d' : ACLEntry} (h : SetOptions t d = .ok d') :
    d' = d ∨ d' = { d with transport := some (tcpEstablishedUpdate (getTransport d)) } := by
  unfold SetOptions at h
  split at h
  · split at h
    · split at h
      · simp at h
      · simp at h
        exact Or.inr h.symm
    · simp at h
      exact Or.inl h.symm
  · simp at h
    exact Or.inl h.symm

theorem SetOptions_markers {t : PolTerm} {d d' : ACLEntry}
    (hopt : "tcp-established" ∈ t.option) (hp : t.protocol = [ProtoSpec.str "tcp"])
    (h : SetOptions t d = .ok d') : hasMarkers d' = true := by
  have hne : t.option ≠ [] := List.ne_nil_of_mem hopt
  unfold SetOptions at h
  simp [hne, hopt, hp] at h
  rw [← h]
  simp [hasMarkers, getTransport, tcpEstablishedUpdate]

theorem SetOptions_err {t : PolTerm} (d : ACLEntry)
    (hopt : "tcp-established" ∈ t.option) (hp : t.protocol ≠ [ProtoSpec.str "tcp"]) :
    SetOptions t d = .error
      (.tcpEstab ("tcp-established can only be used with tcp protocol in term " ++ t.name)) := by
  have hne : t.option ≠ [] := List.ne_nil_of_mem hopt
  simp [SetOptions, hne, hopt, hp]

theorem SetOptions_no_tcpe {t : PolTerm} (d : ACLEntry)
    (hopt : "tcp-established" ∉ t.option) : SetOptions t d = .ok d := by
  unfold SetOptions
  split
  · simp [hopt]
  · rfl

theorem SetAction_ok_fields {t : PolTerm} {d d' : ACLEntry} (h : SetAction t d = .ok d') :
    d'.ipv4 = d.ipv4 ∧ d'.ipv6 = d.ipv6 ∧ d'.transport = d.transport := by
  unfold SetAction at h
  split at h
  · simp at h
  · split at h
    · simp at h
    · simp at h
      rw [← h]
      exact ⟨rfl, rfl, rfl⟩

theorem SetAction_accept {t : PolTerm} (d : ACLEntry) (h : t.action = ["accept"]) :
    SetAction t d = .ok { d with actions := some "ACCEPT" } := by
  simp [SetAction, h, ACTION_MAP]

theorem putIP_off_ipv4 {fam : String} (hf : fam = "ipv4") (c : IPConfig) (d : ACLEntry) :
    (putIP fam c d).ipv6 = d.ipv6 := by
  simp [putIP, hf]

theorem putIP_off_other {fam : String} (hf : fam ≠ "ipv4") (c : IPConfig) (d : ACLEntry) :
    (putIP fam c d).ipv4 = d.ipv4 := by
  simp [putIP, hf]

theorem runProtos_total (family : String) :
    ∀ (ps : List ProtoSpec),
      (∀ p ∈ ps, ∀ x, ∃ y, resolveProto family p x = .ok y) →
      ∀ (d : ACLEntry) (rules : List ACLEntry),
        ∃ d2 rules2, runProtos family ps d rules = .ok (d2, rules2) := by
  intro ps
  induction ps with
  | nil => intro h d rules; exact ⟨d, rules, by rw [runProtos]⟩
  | cons p ps ih =>
    intro h d rules
    obtain ⟨d1, hd1⟩ := h p (by simp) d
    obtain ⟨d2, rules2, h2⟩ := ih (fun q hq => h q (by simp [hq])) d1 (rules ++ [d1])
    exact ⟨d2, rules2, by rw [runProtos, hd1]; exact h2⟩

theorem runDports_total (family : String) (ps : List ProtoSpec)
    (H : ∀ (d : ACLEntry) (rules : List ACLEntry),
      ∃ d2 rules2, runProtos family ps d rules = .ok (d2, rules2)) :
    ∀ (dports : List (Nat × Nat)) (d : ACLEntry) (rules : List ACLEntry),
      ∃ d2 rules2, runDports family dports ps d rules = .ok (d2, rules2) := by
  intro dports
  induction dports with
  | nil => intro d rules; exact ⟨d, rules, by rw [runDports]⟩
  | cons se rest ih =>
    obtain ⟨s, e⟩ := se
    intro d rules
    obtain ⟨da, ra, ha⟩ := H (if s = e ∧ e = 0 then d else SetDestPorts s e d) rules
    obtain ⟨d2, rules2, h2⟩ := ih da ra
    exact ⟨d2, rules2, by rw [runDports, ha]; exact h2⟩

theorem runSports_total (family : String) (dports : List (Nat × Nat)) (ps : List ProtoSpec)
    (H : ∀ (d : ACLEntry) (rules : List ACLEntry),
      ∃ d2 rules2, runDports family dports ps d rules = .ok (d2, rules2)) :
    ∀ (sports : List (Nat × Nat)) (d : ACLEntry) (rules : List ACLEntry),
      ∃ d2 rules2, runSports family sports dports ps d rules = .ok (d2, rules2) := by
  intro sports
  induction sports with
  | nil => intro d rules; exact ⟨d, rules, by rw [runSports]⟩
  | cons se rest ih =>
    obtain ⟨s, e⟩ := se
    intro d rules
    obtain ⟨da, ra, ha⟩ := H (if s = e ∧ e = 0 then d else SetSourcePorts s e d) rules
    obtain ⟨d2, rules2, h2⟩ := ih da ra
    exact ⟨d2, rules2, by rw [runSports, ha]; exact h2⟩

theorem runDaddrs_total (family : String) (sports dports : List (Nat × Nat))
    (ps : List ProtoSpec)
    (H : ∀ (d : ACLEntry) (rules : List ACLEntry),
      ∃ d2 rules2, runSports family sports dports ps d rules = .ok (d2, rules2)) :
    ∀ (daddrs : List (Option String)) (d : ACLEntry) (rules : List ACLEntry),
      ∃ d2 rules2, runDaddrs family daddrs sports dports ps d rules = .ok (d2, rules2) := by
  intro daddrs
  induction daddrs with
  | nil => intro d rules; exact ⟨d, rules, by rw [runDaddrs]⟩
  | cons da rest ih =>
    intro d rules
    obtain ⟨dx, rx, hx⟩ := H (da.elim d (fun a => SetDestAddress family a d)) rules
    obtain ⟨d2, rules2, h2⟩ := ih dx rx
    exact ⟨d2, rules2, by rw [runDaddrs, hx]; exact h2⟩

theorem runSaddrs_total (family : String) (daddrs : List (Option String))
    (sports dports : List (Nat × Nat)) (ps : List ProtoSpec)
    (H : ∀ (d : ACLEntry) (rules : List ACLEntry),
      ∃ d2 rules2, runDaddrs family daddrs sports dports ps d rules = .ok (d2, rules2)) :
    ∀ (saddrs : List (Option String)) (d : ACLEntry) (rules : List ACLEntry),
      ∃ d2 rules2, runSaddrs family saddrs daddrs sports dports ps d rules = .ok (d2, rules2) := by
  intro saddrs
  induction saddrs with
  | nil => intro d rules; exact ⟨d, rules, by rw [runSaddrs]⟩
  | cons sa rest ih =>
    intro d rules
    obtain ⟨dx, rx, hx⟩ := H (sa.elim d (fun a => SetSourceAddress family a d)) rules
    obtain ⟨d2, rules2, h2⟩ := ih dx rx
    exact ⟨d2, rules2, by rw [runSaddrs, hx]; exact h2⟩

theorem expectedIds_length : ∀ (k c : Nat), (expectedIds c k).length = k := by
  intro k
  induction k with
  | zero => intro c; rfl
  | succ k ih => intro c; simp [expectedIds, ih]

theorem expectedIds_append (k1 k2 : Nat) :
    ∀ c, expectedIds c (k1 + k2) = expectedIds c k1 ++ expectedIds (c + k1) k2 := by
  induction k1 with
  | zero => intro c; simp [expectedIds]
  | succ k1 ih =>
    intro c
    have h1 : k1 + 1 + k2 = (k1 + k2) + 1 := by omega
    have h2 : c + 1 + k1 = c + (k1 + 1) := by omega
    rw [h1]
    show some ((c + 1) * 5) :: expectedIds (c + 1) (k1 + k2) = _
    rw [ih (c + 1), h2]
    rfl

theorem assignSeq_spec :
    ∀ (rs : List ACLEntry) (c : Nat),
      (assignSeq c rs).1 = c + rs.length ∧
      ((assignSeq c rs).2).map (fun r => r.sequence_id) = expectedIds c rs.length := by
  intro rs
  induction rs with
  | nil => intro c; exact ⟨rfl, rfl⟩
  | cons r rs ih =>
    intro c
    obtain ⟨h1, h2⟩ := ih (c + 1)
    constructor
    · show (assignSeq (c + 1) rs).1 = c + (rs.length + 1)
      omega
    · show some ((c + 1) * 5) :: ((assignSeq (c + 1) rs).2).map (fun r => r.sequence_id) =
        expectedIds c (rs.length + 1)
      rw [h2]
      rfl

theorem assignSeq_length (rs : List ACLEntry) (c : Nat) :
    ((assignSeq c rs).2).length = rs.length := by
  have h := (assignSeq_spec rs c).2
  have := congrArg List.length h
  simpa [expectedIds_length] using this

theorem assignSeq_strip :
    ∀ (rs : List ACLEntry) (c : Nat),
      ((assignSeq c rs).2).map stripSeq = rs.map stripSeq := by
  intro rs
  induction rs with
  | nil => intro c; rfl
  | cons r rs ih =>
    intro c
    show stripSeq { r with sequence_id := some ((c + 1) * 5) } ::
      ((assignSeq (c + 1) rs).2).map stripSeq = stripSeq r :: rs.map stripSeq
    rw [ih (c + 1)]
    rfl

theorem translateFamilies_seq (t : PolTerm) (opts : List String) :
    ∀ (fams : List String) (c c2 : Nat) (es : List ACLEntry),
      translateFamilies t fams opts c = .ok (c2, es) →
      c2 = c + es.length ∧
      es.map (fun r => r.sequence_id) = expectedIds c es.length := by
  intro fams
  induction fams with
  | nil =>
    intro c c2 es h
    simp [translateFamilies] at h
    obtain ⟨h1, h2⟩ := h
    subst h1
    subst h2
    exact ⟨by simp, rfl⟩
  | cons f fs ih =>
    intro c c2 es h
    rw [translateFamilies] at h
    cases hc : ConvertToDict t f opts with
    | error e => rw [hc] at h; simp at h
    | ok rs =>
      rw [hc] at h
      dsimp only at h
      cases hrec : translateFamilies t fs opts (assignSeq c rs).1 with
      | error e => rw [hrec] at h; simp at h
      | ok q =>
        rw [hrec] at h
        simp at h
        obtain ⟨hq1, hq2⟩ := ih (assignSeq c rs).1 q.1 q.2 (by rw [hrec])
        obtain ⟨ha1, ha2⟩ := assignSeq_spec rs c
        have hal : ((assignSeq c rs).2).length = rs.length := assignSeq_length rs c
        rw [← h.1, ← h.2]
        constructor
        · simp [hq1, ha1, hal]
          omega
        · rw [List.map_append, ha2, hq2, ha1, List.length_append, hal, ← expectedIds_append]

theorem translateTerms_seq (af : String) (opts : List String) :
    ∀ (terms : List PolTerm) (c c2 : Nat) (es : List ACLEntry),
      translateTerms terms af opts c = .ok (c2, es) →
      c2 = c + es.length ∧
      es.map (fun r => r.sequence_id) = expectedIds c es.length := by
  intro terms
  induction terms with
  | nil =>
    intro c c2 es h
    simp [translateTerms] at h
    obtain ⟨h1, h2⟩ := h
    subst h1
    subst h2
    exact ⟨by simp, rfl⟩
  | cons t ts ih =>
    intro c c2 es h
    rw [translateTerms] at h
    cases hf : translateFamilies t (if af = "mixed" then ["inet", "inet6"] else [af]) opts c with
    | error e => rw [hf] at h; simp at h
    | ok p =>
      rw [hf] at h
      dsimp only at h
      cases hrec : translateTerms ts af opts p.1 with
      | error e => rw [hrec] at h; simp at h
      | ok q =>
        rw [hrec] at h
        simp at h
        obtain ⟨hp1, hp2⟩ := translateFamilies_seq t opts _ c p.1 p.2 (by rw [hf])
        obtain ⟨hq1, hq2⟩ := ih p.1 q.1 q.2 (by rw [hrec])
        rw [← h.1, ← h.2]
        constructor
        · simp
          omega
        · rw [List.map_append, hp2, hq2, hp1]
          rw [← expectedIds_append]
          simp

theorem translateFilter_seq (hdr : Header) (terms : List PolTerm) (c c2 : Nat)
    (s : ACLSet) (h : translateFilter hdr terms c = .ok (c2, s)) :
    c2 = c + s.entries.length ∧
    s.entries.map (fun r => r.sequence_id) = expectedIds c s.entries.length := by
  unfold translateFilter at h
  cases ht : translateTerms terms (extractAF hdr.filter_options).1
      (extractAF hdr.filter_options).2 c with
  | error e => rw [ht] at h; simp at h
  | ok q =>
    rw [ht] at h
    dsimp only at h
    cases hm : FAMILY_MAP (extractAF hdr.filter_options).1 with
    | none => rw [hm] at h; simp at h
    | some oc_type =>
      rw [hm] at h
      simp at h
      obtain ⟨h1, h2⟩ := translateTerms_seq _ _ terms c q.1 q.2 (by rw [ht])
      rw [← h.2]
      simp
      exact ⟨by rw [← h.1]; exact h1, h2⟩

theorem translateFilters_seq :
    ∀ (filters : List (Header × List PolTerm)) (c c2 : Nat) (ss : List ACLSet),
      translateFilters filters c = .ok (c2, ss) →
      c2 = c + (allEntries ss).length ∧
      (allEntries ss).map (fun r => r.sequence_id) = expectedIds c (allEntries ss).length := by
  intro filters
  induction filters with
  | nil =>
    intro c c2 ss h
    simp [translateFilters] at h
    obtain ⟨h1, h2⟩ := h
    subst h1
    subst h2
    exact ⟨rfl, rfl⟩
  | cons f rest ih =>
    obtain ⟨hd, ts⟩ := f
    intro c c2 ss h
    rw [translateFilters] at h
    cases hf : translateFilter hd ts c with
    | error e => rw [hf] at h; simp at h
    | ok p =>
      rw [hf] at h
      dsimp only at h
      cases hrec : translateFilters rest p.1 with
      | error e => rw [hrec] at h; simp at h
      | ok q =>
        rw [hrec] at h
        simp at h
        obtain ⟨hp1, hp2⟩ := translateFilter_seq hd ts c p.1 p.2 (by rw [hf])
        obtain ⟨hq1, hq2⟩ := ih p.1 q.1 q.2 (by rw [hrec])
        rw [← h.1, ← h.2]
        have hall : allEntries (p.2 :: q.2) = p.2.entries ++ allEntries q.2 := by
          simp [allEntries]
        constructor
        · rw [hall]
          simp
          omega
        · rw [hall, List.map_append, hp2, hq2, hp1]
          rw [← expectedIds_append]
          simp

theorem expectedIds_eq_range :
    ∀ (n c : Nat), expectedIds c n = (List.range n).map (fun i => some ((c + i + 1) * 5)) := by
  intro n
  induction n with
  | zero => intro c; rfl
  | succ n ih =>
    intro c
    rw [List.range_succ_eq_map]
    show some ((c + 1) * 5) :: expectedIds (c + 1) n = _
    rw [ih (c + 1)]
    simp [List.map_map]
    intro a ha
    omega

section TransPres

variable (Q : ACLEntry → Prop)

theorem assignSeq_pres (hQ : ∀ (r : ACLEntry) (c : Nat), Q r → Q { r with sequence_id := some c }) :
    ∀ (rs : List ACLEntry) (c : Nat), (∀ r ∈ rs, Q r) →
      ∀ r ∈ (assignSeq c rs).2, Q r := by
  intro rs
  induction rs with
  | nil => intro c hall r hr; simp [assignSeq] at hr
  | cons x rs ih =>
    intro c hall r hr
    rcases List.mem_cons.mp hr with h1 | h1
    · rw [h1]
      exact hQ x _ (hall x (by simp))
    · exact ih (c + 1) (fun y hy => hall y (by simp [hy])) r h1

theorem translateFamilies_pres
    (hQ : ∀ (r : ACLEntry) (c : Nat), Q r → Q { r with sequence_id := some c })
    (t : PolTerm) (opts : List String)
    (hconv : ∀ (f : String) (rs : List ACLEntry),
      ConvertToDict t f opts = .ok rs → ∀ r ∈ rs, Q r) :
    ∀ (fams : List String) (c c2 : Nat) (es : List ACLEntry),
      translateFamilies t fams opts c = .ok (c2, es) → ∀ r ∈ es, Q r := by
  intro fams
  induction fams with
  | nil =>
    intro c c2 es h r hr
    simp [translateFamilies] at h
    rw [h.2] at hr
    simp at hr
  | cons f fs ih =>
    intro c c2 es h r hr
    rw [translateFamilies] at h
    cases hc : ConvertToDict t f opts with
    | error e => rw [hc] at h; simp at h
    | ok rs =>
      rw [hc] at h
      dsimp only at h
      cases hrec : translateFamilies t fs opts (assignSeq c rs).1 with
      | error e => rw [hrec] at h; simp at h
      | ok q =>
        rw [hrec] at h
        simp at h
        rw [← h.2] at hr
        rcases List.mem_append.mp hr with h1 | h1
        · exact assignSeq_pres Q hQ rs c (hconv f rs hc) r h1
        · exact ih (assignSeq c rs).1 q.1 q.2 (by rw [hrec]) r h1

theorem translateTerms_pres
    (hQ : ∀ (r : ACLEntry) (c : Nat), Q r → Q { r with sequence_id := some c })
    (af : String) (opts : List String)
    (hconv : ∀ (t : PolTerm) (f : String) (rs : List ACLEntry),
      ConvertToDict t f opts = .ok rs → ∀ r ∈ rs, Q r) :
    ∀ (terms : List PolTerm) (c c2 : Nat) (es : List ACLEntry),
      translateTerms terms af opts c = .ok (c2, es) → ∀ r ∈ es, Q r := by
  intro terms
  induction terms with
  | nil =>
    intro c c2 es h r hr
    simp [translateTerms] at h
    rw [h.2] at hr
    simp at hr
  | cons t ts ih =>
    intro c c2 es h r hr
    rw [translateTerms] at h
    cases hf : translateFamilies t (if af = "mixed" then ["inet", "inet6"] else [af]) opts c with
    | error e => rw [hf] at h; simp at h
    | ok p =>
      rw [hf] at h
      dsimp only at h
      cases hrec : translateTerms ts af opts p.1 with
      | error e => rw [hrec] at h; simp at h
      | ok q =>
        rw [hrec] at h
        simp at h
        rw [← h.2] at hr
        rcases List.mem_append.mp hr with h1 | h1
        · exact translateFamilies_pres Q hQ t opts (hconv t) _ c p.1 p.2 (by rw [hf]) r h1
        · exact ih p.1 q.1 q.2 (by rw [hrec]) r h1

theorem translateFilters_pres
    (hQ : ∀ (r : ACLEntry) (c : Nat), Q r → Q { r with sequence_id := some c })
    (hconv : ∀ (t : PolTerm) (f : String) (opts : List String) (rs : List ACLEntry),
      ConvertToDict t f opts = .ok rs → ∀ r ∈ rs, Q r) :
    ∀ (filters : List (Header × List PolTerm)) (c c2 : Nat) (ss : List ACLSet),
      translateFilters filters c = .ok (c2, ss) →
      ∀ s ∈ ss, ∀ r ∈ s.entries, Q r := by
  intro filters
  induction filters with
  | nil =>
    intro c c2 ss h s hs
    simp [translateFilters] at h
    rw [h.2] at hs
    simp at hs
  | cons f rest ih =>
    obtain ⟨hd, ts⟩ := f
    intro c c2 ss h s hs r hr
    rw [translateFilters] at h
    cases hf : translateFilter hd ts c with
    | error e => rw [hf] at h; simp at h
    | ok p =>
      rw [hf] at h
      dsimp only at h
      cases hrec : translateFilters rest p.1 with
      | error e => rw [hrec] at h; simp at h
      | ok q =>
        rw [hrec] at h
        simp at h
        rw [← h.2] at hs
        rcases List.mem_cons.mp hs with h1 | h1
        · unfold translateFilter at hf
          cases ht : translateTerms ts (extractAF hd.filter_options).1
              (extractAF hd.filter_options).2 c with
          | error e => rw [ht] at hf; simp at hf
          | ok tq =>
            rw [ht] at hf
            dsimp only at hf
            cases hm : FAMILY_MAP (extractAF hd.filter_options).1 with
            | none => rw [hm] at hf; simp at hf
            | some oc_type =>
              rw [hm] at hf
              simp at hf
              have hentries : s.entries = tq.2 := by
                rw [h1, ← hf]
              rw [hentries] at hr
              exact translateTerms_pres Q hQ _ _ (fun t' f' => hconv t' f' _) ts c tq.1 tq.2
                (by rw [ht]) r hr
        · exact ih p.1 q.1 q.2 (by rw [hrec]) s h1 r hr

end TransPres

theorem ConvertToDict_ok_af {t : PolTerm} {iv : String} {fo : List String}
    {rules : List ACLEntry} (h : ConvertToDict t iv fo = .ok rules) :
    ∃ af, AF_MAP iv = some af := by
  cases haf : AF_MAP iv with
  | none => unfold ConvertToDict at h; rw [haf] at h; simp at h
  | some af => exact ⟨af, rfl⟩

theorem convertCore_run_ok {t : PolTerm} {af : Nat} {fam : String} {d0 d1 dfin : ACLEntry}
    {rules : List ACLEntry}
    (hA : SetAction t emptyEntry = .ok d0) (hO : SetOptions t d0 = .ok d1)
    (hR : runSaddrs fam (anySub (GetAddressOfVersion t.flattened_saddr af))
      (anySub (GetAddressOfVersion t.flattened_daddr af))
      (portSub t.source_port) (portSub t.destination_port)
      (protoSub t.protocol) d1 [] = .ok (dfin, rules)) :
    convertCore t af fam = .ok rules := by
  simp only [convertCore, hA, hO, hR]

theorem convertCore_run_err {t : PolTerm} {af : Nat} {fam : String} {d0 d1 : ACLEntry}
    {er : OcError}
    (hA : SetAction t emptyEntry = .ok d0) (hO : SetOptions t d0 = .ok d1)
    (hR : runSaddrs fam (anySub (GetAddressOfVersion t.flattened_saddr af))
      (anySub (GetAddressOfVersion t.flattened_daddr af))
      (portSub t.source_port) (portSub t.destination_port)
      (protoSub t.protocol) d1 [] = .error er) :
    convertCore t af fam = .error er := by
  simp only [convertCore, hA, hO, hR]

theorem protoSub_of_ne {l : List ProtoSpec} (h : l ≠ []) : protoSub l = l := by
  unfold protoSub
  split
  next h1 => simp [List.isEmpty_iff] at h1; exact absurd h1 h
  · rfl

theorem portSub_of_ne {l : List (Nat × Nat)} (h : l ≠ []) : portSub l = l := by
  unfold portSub
  split
  next h1 => simp [List.isEmpty_iff] at h1; exact absurd h1 h
  · rfl

theorem ConvertToDict_offFamily (t : PolTerm) (iv : String) (fo : List String)
    (rules : List ACLEntry) (h : ConvertToDict t iv fo = .ok rules) :
    ∀ r ∈ rules, r.ipv4 = none ∨ r.ipv6 = none := by
  intro r hr
  obtain ⟨af, haf⟩ := ConvertToDict_ok_af h
  obtain ⟨fam, hren, hfam⟩ := AF_RENAME_of_MAP haf
  rw [ConvertToDict_eq_core fo haf hren] at h
  obtain ⟨d0, d1, dfin, hA, hO, hR⟩ := convertCore_ok h
  obtain ⟨hA4, hA6, hAt⟩ := SetAction_ok_fields hA
  by_cases hf : fam = "ipv4"
  · have hd1 : d1.ipv6 = none := by
      rcases SetOptions_ok_cases hO with h1 | h1 <;> rw [h1] <;> rw [hA6] <;> rfl
    have hinv := runSaddrs_inv (fun x => x.ipv6 = none) fam _ _ _ _
      (fun p hp x y hok hx => by
        show y.ipv6 = none
        rcases resolveProto_ok_cases hok with h1 | ⟨n, h1⟩
        · rw [h1]; exact hx
        · rw [h1]; unfold SetProtocol; rw [putIP_off_ipv4 hf]; exact hx)
      (fun se hm hne x hx => by
        show (SetDestPorts se.1 se.2 x).ipv6 = none
        rw [(SetDestPorts_ip se.1 se.2 x).2]; exact hx)
      (fun se hm hne x hx => by
        show (SetSourcePorts se.1 se.2 x).ipv6 = none
        rw [(SetSourcePorts_ip se.1 se.2 x).2]; exact hx)
      (fun a x hx => by
        show (SetDestAddress fam a x).ipv6 = none
        unfold SetDestAddress; rw [putIP_off_ipv4 hf]; exact hx)
      (fun a x hx => by
        show (SetSourceAddress fam a x).ipv6 = none
        unfold SetSourceAddress; rw [putIP_off_ipv4 hf]; exact hx)
      _ d1 [] dfin rules hR hd1
    rcases hinv.2 r hr with h1 | h1
    · simp at h1
    · exact Or.inr h1
  · have hd1 : d1.ipv4 = none := by
      rcases SetOptions_ok_cases hO with h1 | h1 <;> rw [h1] <;> rw [hA4] <;> rfl
    have hinv := runSaddrs_inv (fun x => x.ipv4 = none) fam _ _ _ _
      (fun p hp x y hok hx => by
        show y.ipv4 = none
        rcases resolveProto_ok_cases hok with h1 | ⟨n, h1⟩
        · rw [h1]; exact hx
        · rw [h1]; unfold SetProtocol; rw [putIP_off_other hf]; exact hx)
      (fun se hm hne x hx => by
        show (SetDestPorts se.1 se.2 x).ipv4 = none
        rw [(SetDestPorts_ip se.1 se.2 x).1]; exact hx)
      (fun se hm hne x hx => by
        show (SetSourcePorts se.1 se.2 x).ipv4 = none
        rw [(SetSourcePorts_ip se.1 se.2 x).1]; exact hx)
      (fun a x hx => by
        show (SetDestAddress fam a x).ipv4 = none
        unfold SetDestAddress; rw [putIP_off_other hf]; exact hx)
      (fun a x hx => by
        show (SetSourceAddress fam a x).ipv4 = none
        unfold SetSourceAddress; rw [putIP_off_other hf]; exact hx)
      _ d1 [] dfin rules hR hd1
    rcases hinv.2 r hr with h1 | h1
    · simp at h1
    · exact Or.inl h1

theorem ConvertToDict_markers {t : PolTerm} {iv : String} {fo : List String}
    {rules : List ACLEntry}
    (hopt : "tcp-established" ∈ t.option) (hp : t.protocol = [ProtoSpec.str "tcp"])
    (h : ConvertToDict t iv fo = .ok rules) :
    ∀ r ∈ rules, hasMarkers r = true := by
  intro r hr
  obtain ⟨af, haf⟩ := ConvertToDict_ok_af h
  obtain ⟨fam, hren, hfam⟩ := AF_RENAME_of_MAP haf
  rw [ConvertToDict_eq_core fo haf hren] at h
  obtain ⟨d0, d1, dfin, hA, hO, hR⟩ := convertCore_ok h
  have hd1 : hasMarkers d1 = true := SetOptions_markers hopt hp hO
  have hinv := runSaddrs_inv (fun x => hasMarkers x = true) fam _ _ _ _
    (fun p hp' x y hok hx => by
      show hasMarkers y = true
      rcases resolveProto_ok_cases hok with h1 | ⟨n, h1⟩
      · rw [h1]; exact hx
      · rw [h1, hasMarkers_transport_eq (SetProtocol_transport fam n x)]; exact hx)
    (fun se hm hne x hx => by
      show hasMarkers (SetDestPorts se.1 se.2 x) = true
      rw [hasMarkers_SetDestPorts]; exact hx)
    (fun se hm hne x hx => by
      show hasMarkers (SetSourcePorts se.1 se.2 x) = true
      rw [hasMarkers_SetSourcePorts]; exact hx)
    (fun a x hx => by
      show hasMarkers (SetDestAddress fam a x) = true
      rw [hasMarkers_transport_eq (SetDestAddress_transport fam a x)]; exact hx)
    (fun a x hx => by
      show hasMarkers (SetSourceAddress fam a x) = true
      rw [hasMarkers_transport_eq (SetSourceAddress_transport fam a x)]; exact hx)
    _ d1 [] dfin rules hR hd1
  rcases hinv.2 r hr with h1 | h1
  · simp at h1
  · exact h1

theorem ConvertToDict_tcp_ok {t : PolTerm} {iv : String} {af : Nat} {fam : String}
    (fo : List String) {d0 : ACLEntry}
    (haf : AF_MAP iv = some af) (hren : AF_RENAME af = some fam)
    (hopt : "tcp-established" ∈ t.option) (hp : t.protocol = [ProtoSpec.str "tcp"])
    (hA : SetAction t emptyEntry = .ok d0) :
    ∃ rules, ConvertToDict t iv fo = .ok rules := by
  have hne : t.option ≠ [] := List.ne_nil_of_mem hopt
  have hO : SetOptions t d0 =
      .ok { d0 with transport := some (tcpEstablishedUpdate (getTransport d0)) } := by
    simp [SetOptions, hne, hopt, hp]
  have htot : ∀ p ∈ protoSub t.protocol, ∀ x, ∃ y, resolveProto fam p x = .ok y := by
    rw [protoSub_of_ne (by rw [hp]; simp)]
    rw [hp]
    intro p hp' x
    simp at hp'
    rw [hp']
    exact ⟨SetProtocol fam 6 x, resolveProto_str_ok (by simp) (by simp [PROTO_MAP]) x⟩
  have h1 := runProtos_total fam (protoSub t.protocol) htot
  have h2 := runDports_total fam (protoSub t.protocol) h1 (portSub t.destination_port)
  have h3 := runSports_total fam (portSub t.destination_port) (protoSub t.protocol) h2
    (portSub t.source_port)
  have h4 := runDaddrs_total fam (portSub t.source_port) (portSub t.destination_port)
    (protoSub t.protocol) h3 (anySub (GetAddressOfVersion t.flattened_daddr af))
  obtain ⟨dfin, rules, hR⟩ :=
    runSaddrs_total fam (anySub (GetAddressOfVersion t.flattened_daddr af))
      (portSub t.source_port) (portSub t.destination_port) (protoSub t.protocol) h4
      (anySub (GetAddressOfVersion t.flattened_saddr af)) _ []
  exact ⟨rules, by rw [ConvertToDict_eq_core fo haf hren]
                   exact convertCore_run_ok hA hO hR⟩

theorem ConvertToDict_tcp_err {t : PolTerm} {iv : String} {af : Nat} {fam : String}
    (fo : List String) {d0 : ACLEntry}
    (haf : AF_MAP iv = some af) (hren : AF_RENAME af = some fam)
    (hopt : "tcp-established" ∈ t.option) (hp : t.protocol ≠ [ProtoSpec.str "tcp"])
    (hA : SetAction t emptyEntry = .ok d0) :
    ConvertToDict t iv fo = .error
      (.tcpEstab ("tcp-established can only be used with tcp protocol in term " ++ t.name)) := by
  rw [ConvertToDict_eq_core fo haf hren]
  simp only [convertCore, hA, SetOptions_err d0 hopt hp]

theorem ConvertToDict_err_unknown_proto {t : PolTerm} {iv : String} {af : Nat} {fam : String}
    (fo : List String) {d0 d1 : ACLEntry} {s : String}
    (haf : AF_MAP iv = some af) (hren : AF_RENAME af = some fam)
    (hmem : ProtoSpec.str s ∈ t.protocol) (hs : s ≠ "none") (hmap : PROTO_MAP s = none)
    (hA : SetAction t emptyEntry = .ok d0) (hO : SetOptions t d0 = .ok d1) :
    ∃ tok, PROTO_MAP tok = none ∧ tok ≠ "none" ∧ ProtoSpec.str tok ∈ t.protocol ∧
      ConvertToDict t iv fo = .error (.ocFirewall tok) := by
  have hne : t.protocol ≠ [] := List.ne_nil_of_mem hmem
  have hps : protoSub t.protocol = t.protocol := protoSub_of_ne hne
  obtain ⟨tok, h1, h2, h3, h4⟩ :=
    runProtos_err_mem fam t.protocol s hmem hs hmap
  refine ⟨tok, h1, h2, h3, ?_⟩
  rw [ConvertToDict_eq_core fo haf hren]
  apply convertCore_run_err hA hO
  rw [hps]
  exact runSaddrs_err fam _ _ _ _ _
    (anySub_ne _) (portSub_ne _) (portSub_ne _) h4 _ d1 [] (anySub_ne _)

theorem ConvertToDict_protocol_num {t : PolTerm} {iv : String} {af : Nat} {fam : String}
    {fo : List String} {n : Nat} {rules : List ACLEntry}
    (haf : AF_MAP iv = some af) (hren : AF_RENAME af = some fam)
    (hp : t.protocol = [ProtoSpec.num n])
    (h : ConvertToDict t iv fo = .ok rules) :
    ∀ r ∈ rules, entryProtocol fam r = some n := by
  intro r hr
  rw [ConvertToDict_eq_core fo haf hren] at h
  obtain ⟨d0, d1, dfin, hA, hO, hR⟩ := convertCore_ok h
  have hps : protoSub t.protocol = [ProtoSpec.num n] := by
    rw [hp]
    exact protoSub_of_ne (by simp)
  rw [hps] at hR
  have n1 := runProtos_new (fun x => entryProtocol fam x = some n) fam [ProtoSpec.num n]
    (fun p hp' x y hok => by
      show entryProtocol fam y = some n
      simp at hp'
      rw [hp'] at hok
      rw [resolveProto_num] at hok
      simp at hok
      rw [← hok]
      exact entryProtocol_SetProtocol fam n x)
  have n2 := runDports_new (fun x => entryProtocol fam x = some n) fam [ProtoSpec.num n] n1
    (portSub t.destination_port)
  have n3 := runSports_new (fun x => entryProtocol fam x = some n) fam
    (portSub t.destination_port) [ProtoSpec.num n] n2 (portSub t.source_port)
  have n4 := runDaddrs_new (fun x => entryProtocol fam x = some n) fam
    (portSub t.source_port) (portSub t.destination_port) [ProtoSpec.num n] n3
    (anySub (GetAddressOfVersion t.flattened_daddr af))
  have hnew := runSaddrs_new (fun x => entryProtocol fam x = some n) fam
    (anySub (GetAddressOfVersion t.flattened_daddr af))
    (portSub t.source_port) (portSub t.destination_port) [ProtoSpec.num n] n4
    (anySub (GetAddressOfVersion t.flattened_saddr af)) d1 [] dfin rules hR r hr
  rcases hnew with h1 | h1
  · simp at h1
  · exact h1

theorem ConvertToDict_sport_single {t : PolTerm} {iv : String} {af : Nat} {fam : String}
    {fo : List String} {s e : Nat} {rules : List ACLEntry}
    (haf : AF_MAP iv = some af) (hren : AF_RENAME af = some fam)
    (hsp : t.source_port = [(s, e)]) (hns : ¬(s = e ∧ e = 0))
    (h : ConvertToDict t iv fo = .ok rules) :
    ∀ r ∈ rules, entrySourcePort r =
      some (if s = e then PortVal.scalar s else PortVal.interval s e) := by
  intro r hr
  rw [ConvertToDict_eq_core fo haf hren] at h
  obtain ⟨d0, d1, dfin, hA, hO, hR⟩ := convertCore_ok h
  have hps : portSub t.source_port = [(s, e)] := by
    rw [hsp]
    exact portSub_of_ne (by simp)
  rw [hps] at hR
  have HS : ∀ (d : ACLEntry) (rules1 : List ACLEntry) (d2 : ACLEntry) (rules2 : List ACLEntry),
      runSports fam [(s, e)] (portSub t.destination_port) (protoSub t.protocol) d rules1 =
        .ok (d2, rules2) →
      ∀ x ∈ rules2, x ∈ rules1 ∨ entrySourcePort x =
        some (if s = e then PortVal.scalar s else PortVal.interval s e) := by
    intro d rules1 d2 rules2 hh x hx
    rw [runSports.eq_def] at hh
    dsimp only at hh
    rw [if_neg hns] at hh
    cases hrp : runDports fam (portSub t.destination_port) (protoSub t.protocol)
        (SetSourcePorts s e d) rules1 with
    | error er => rw [hrp] at hh; simp at hh
    | ok pr =>
      rw [hrp] at hh
      simp [runSports] at hh
      have hinv := runDports_inv
        (fun y => entrySourcePort y =
          some (if s = e then PortVal.scalar s else PortVal.interval s e))
        fam (protoSub t.protocol)
        (fun p hp x' y' hok hx' => by
          show entrySourcePort y' = _
          rcases resolveProto_ok_cases hok with h1 | ⟨m, h1⟩
          · rw [h1]; exact hx'
          · rw [h1, entrySourcePort_transport_eq (SetProtocol_transport fam m x')]; exact hx')
        (portSub t.destination_port) _ _ _ _ hrp
        (fun se hm hne x' hx' => by
          show entrySourcePort (SetDestPorts se.1 se.2 x') = _
          rw [entrySourcePort_SetDestPorts]; exact hx')
        (entrySourcePort_SetSourcePorts s e d)
      subst hh
      exact hinv.2 x hx
  have hnew := runSaddrs_new
    (fun y => entrySourcePort y =
      some (if s = e then PortVal.scalar s else PortVal.interval s e)) fam
    (anySub (GetAddressOfVersion t.flattened_daddr af))
    [(s, e)] (portSub t.destination_port) (protoSub t.protocol)
    (runDaddrs_new _ fam [(s, e)] (portSub t.destination_port) (protoSub t.protocol) HS
      (anySub (GetAddressOfVersion t.flattened_daddr af)))
    (anySub (GetAddressOfVersion t.flattened_saddr af)) d1 [] dfin rules hR r hr
  rcases hnew with h1 | h1
  · simp at h1
  · exact h1

theorem ConvertToDict_sport_none {t : PolTerm} {iv : String} {af : Nat} {fam : String}
    {fo : List String} {rules : List ACLEntry}
    (haf : AF_MAP iv = some af) (hren : AF_RENAME af = some fam)
    (hsp : portSub t.source_port = [(0, 0)])
    (h : ConvertToDict t iv fo = .ok rules) :
    ∀ r ∈ rules, entrySourcePort r = none := by
  intro r hr
  rw [ConvertToDict_eq_core fo haf hren] at h
  obtain ⟨d0, d1, dfin, hA, hO, hR⟩ := convertCore_ok h
  obtain ⟨hA4, hA6, hAt⟩ := SetAction_ok_fields hA
  have h0 : entrySourcePort d0 = none := by
    unfold entrySourcePort getTransport
    rw [hAt]
    rfl
  have hd1 : entrySourcePort d1 = none := by
    rcases SetOptions_ok_cases hO with h1 | h1
    · rw [h1]; exact h0
    · rw [h1]
      show (tcpEstablishedUpdate (getTransport d0)).source_port = none
      exact h0
  rw [hsp] at hR
  have hinv := runSaddrs_inv (fun x => entrySourcePort x = none) fam _ _ _ _
    (fun p hp x y hok hx => by
      show entrySourcePort y = none
      rcases resolveProto_ok_cases hok with h1 | ⟨m, h1⟩
      · rw [h1]; exact hx
      · rw [h1, entrySourcePort_transport_eq (SetProtocol_transport fam m x)]; exact hx)
    (fun se hm hne x hx => by
      show entrySourcePort (SetDestPorts se.1 se.2 x) = none
      rw [entrySourcePort_SetDestPorts]; exact hx)
    (fun se hm hne x hx => by
      simp at hm
      subst hm
      exact absurd ⟨rfl, rfl⟩ hne)
    (fun a x hx => by
      show entrySourcePort (SetDestAddress fam a x) = none
      rw [entrySourcePort_transport_eq (SetDestAddress_transport fam a x)]; exact hx)
    (fun a x hx => by
      show entrySourcePort (SetSourceAddress fam a x) = none
      rw [entrySourcePort_transport_eq (SetSourceAddress_transport fam a x)]; exact hx)
    _ d1 [] dfin rules hR hd1
  rcases hinv.2 r hr with h1 | h1
  · simp at h1
  · exact h1

theorem entryDestPort_transport_eq {d d' : ACLEntry} (h : d'.transport = d.transport) :
    entryDestPort d' = entryDestPort d := by
  unfold entryDestPort getTransport
  rw [h]

theorem entryDestPort_SetDestPorts (s e : Nat) (d : ACLEntry) :
    entryDestPort (SetDestPorts s e d) =
      some (if s = e then PortVal.scalar s else PortVal.interval s e) := by
  unfold entryDestPort
  rw [getTransport_SetDestPorts]

theorem entryDestPort_SetSourcePorts (s e : Nat) (d : ACLEntry) :
    entryDestPort (SetSourcePorts s e d) = entryDestPort d := by
  unfold entryDestPort
  rw [getTransport_SetSourcePorts]

theorem ConvertToDict_dport_single {t : PolTerm} {iv : String} {af : Nat} {fam : String}
    {fo : List String} {s e : Nat} {rules : List ACLEntry}
    (haf : AF_MAP iv = some af) (hren : AF_RENAME af = some fam)
    (hdp : t.destination_port = [(s, e)]) (hns : ¬(s = e ∧ e = 0))
    (h : ConvertToDict t iv fo = .ok rules) :
    ∀ r ∈ rules, entryDestPort r =
      some (if s = e then PortVal.scalar s else PortVal.interval s e) := by
  intro r hr
  rw [ConvertToDict_eq_core fo haf hren] at h
  obtain ⟨d0, d1, dfin, hA, hO, hR⟩ := convertCore_ok h
  have hps : portSub t.destination_port = [(s, e)] := by
    rw [hdp]
    exact portSub_of_ne (by simp)
  rw [hps] at hR
  have HD : ∀ (d : ACLEntry) (rules1 : List ACLEntry) (d2 : ACLEntry) (rules2 : List ACLEntry),
      runDports fam [(s, e)] (protoSub t.protocol) d rules1 = .ok (d2, rules2) →
      ∀ x ∈ rules2, x ∈ rules1 ∨ entryDestPort x =
        some (if s = e then PortVal.scalar s else PortVal.interval s e) := by
    intro d rules1 d2 rules2 hh x hx
    rw [runDports.eq_def] at hh
    dsimp only at hh
    rw [if_neg hns] at hh
    cases hrp : runProtos fam (protoSub t.protocol) (SetDestPorts s e d) rules1 with
    | error er => rw [hrp] at hh; simp at hh
    | ok pr =>
      rw [hrp] at hh
      simp [runDports] at hh
      have hinv := runProtos_inv
        (fun y => entryDestPort y =
          some (if s = e then PortVal.scalar s else PortVal.interval s e))
        fam (protoSub t.protocol) _ _ _ _ hrp
        (fun p hp x' y' hok hx' => by
          show entryDestPort y' = _
          rcases resolveProto_ok_cases hok with h1 | ⟨m, h1⟩
          · rw [h1]; exact hx'
          · rw [h1, entryDestPort_transport_eq (SetProtocol_transport fam m x')]; exact hx')
        (entryDestPort_SetDestPorts s e d)
      subst hh
      exact hinv.2 x hx
  have hnew := runSaddrs_new
    (fun y => entryDestPort y =
      some (if s = e then PortVal.scalar s else PortVal.interval s e)) fam
    (anySub (GetAddressOfVersion t.flattened_daddr af))
    (portSub t.source_port) [(s, e)] (protoSub t.protocol)
    (runDaddrs_new _ fam (portSub t.source_port) [(s, e)] (protoSub t.protocol)
      (runSports_new _ fam [(s, e)] (protoSub t.protocol) HD (portSub t.source_port))
      (anySub (GetAddressOfVersion t.flattened_daddr af)))
    (anySub (GetAddressOfVersion t.flattened_saddr af)) d1 [] dfin rules hR r hr
  rcases hnew with h1 | h1
  · simp at h1
  · exact h1

theorem ConvertToDict_dport_none {t : PolTerm} {iv : String} {af : Nat} {fam : String}
    {fo : List String} {rules : List ACLEntry}
    (haf : AF_MAP iv = some af) (hren : AF_RENAME af = some fam)
    (hdp : portSub t.destination_port = [(0, 0)])
    (h : ConvertToDict t iv fo = .ok rules) :
    ∀ r ∈ rules, entryDestPort r = none := by
  intro r hr
  rw [ConvertToDict_eq_core fo haf hren] at h
  obtain ⟨d0, d1, dfin, hA, hO, hR⟩ := convertCore_ok h
  obtain ⟨hA4, hA6, hAt⟩ := SetAction_ok_fields hA
  have h0 : entryDestPort d0 = none := by
    unfold entryDestPort getTransport
    rw [hAt]
    rfl
  have hd1 : entryDestPort d1 = none := by
    rcases SetOptions_ok_cases hO with h1 | h1
    · rw [h1]; exact h0
    · rw [h1]
      show (tcpEstablishedUpdate (getTransport d0)).destination_port = none
      exact h0
  rw [hdp] at hR
  have hinv := runSaddrs_inv (fun x => entryDestPort x = none) fam _ _ _ _
    (fun p hp x y hok hx => by
      show entryDestPort y = none
      rcases resolveProto_ok_cases hok with h1 | ⟨m, h1⟩
      · rw [h1]; exact hx
      · rw [h1, entryDestPort_transport_eq (SetProtocol_transport fam m x)]; exact hx)
    (fun se hm hne x hx => by
      simp at hm
      subst hm
      exact absurd ⟨rfl, rfl⟩ hne)
    (fun se hm hne x hx => by
      show entryDestPort (SetSourcePorts se.1 se.2 x) = none
      rw [entryDestPort_SetSourcePorts]; exact hx)
    (fun a x hx => by
      show entryDestPort (SetDestAddress fam a x) = none
      rw [entryDestPort_transport_eq (SetDestAddress_transport fam a x)]; exact hx)
    (fun a x hx => by
      show entryDestPort (SetSourceAddress fam a x) = none
      rw [entryDestPort_transport_eq (SetSourceAddress_transport fam a x)]; exact hx)
    _ d1 [] dfin rules hR hd1
  rcases hinv.2 r hr with h1 | h1
  · simp at h1
  · exact h1

theorem ConvertToDict_protocol_resolved {t : PolTerm} {iv : String} {af : Nat}
    {fam : String} {fo : List String} {rules : List ACLEntry}
    (haf : AF_MAP iv = some af) (hren : AF_RENAME af = some fam)
    (hne : t.protocol ≠ []) (hnone : ProtoSpec.str "none" ∉ t.protocol)
    (h : ConvertToDict t iv fo = .ok rules) :
    ∀ r ∈ rules, ∃ p ∈ t.protocol, ∃ m,
      protoNumOf p = some m ∧ entryProtocol fam r = some m := by
  intro r hr
  rw [ConvertToDict_eq_core fo haf hren] at h
  obtain ⟨d0, d1, dfin, hA, hO, hR⟩ := convertCore_ok h
  rw [protoSub_of_ne hne] at hR
  have hres : ∀ p ∈ t.protocol, ∀ (x y : ACLEntry), resolveProto fam p x = .ok y →
      ∃ q ∈ t.protocol, ∃ m, protoNumOf q = some m ∧ entryProtocol fam y = some m := by
    intro p hp x y hok
    cases p with
    | str s =>
      have hs : s ≠ "none" := fun hcontra => hnone (hcontra ▸ hp)
      cases hm : PROTO_MAP s with
      | none => simp [resolveProto, hs, hm] at hok
      | some m =>
        simp [resolveProto, hs, hm] at hok
        exact ⟨ProtoSpec.str s, hp, m, by simp [protoNumOf, hm],
          by rw [← hok]; exact entryProtocol_SetProtocol fam m x⟩
    | num m =>
      rw [resolveProto_num] at hok
      simp at hok
      exact ⟨ProtoSpec.num m, hp, m, rfl,
        by rw [← hok]; exact entryProtocol_SetProtocol fam m x⟩
  have n1 := runProtos_new
    (fun y => ∃ q ∈ t.protocol, ∃ m, protoNumOf q = some m ∧ entryProtocol fam y = some m)
    fam t.protocol (fun p hp x y hok => hres p hp x y hok)
  have n2 := runDports_new
    (fun y => ∃ q ∈ t.protocol, ∃ m, protoNumOf q = some m ∧ entryProtocol fam y = some m)
    fam t.protocol n1 (portSub t.destination_port)
  have n3 := runSports_new
    (fun y => ∃ q ∈ t.protocol, ∃ m, protoNumOf q = some m ∧ entryProtocol fam y = some m)
    fam (portSub t.destination_port) t.protocol n2 (portSub t.source_port)
  have n4 := runDaddrs_new
    (fun y => ∃ q ∈ t.protocol, ∃ m, protoNumOf q = some m ∧ entryProtocol fam y = some m)
    fam (portSub t.source_port) (portSub t.destination_port) t.protocol n3
    (anySub (GetAddressOfVersion t.flattened_daddr af))
  have hnew := runSaddrs_new
    (fun y => ∃ q ∈ t.protocol, ∃ m, protoNumOf q = some m ∧ entryProtocol fam y = some m)
    fam (anySub (GetAddressOfVersion t.flattened_daddr af))
    (portSub t.source_port) (portSub t.destination_port) t.protocol n4
    (anySub (GetAddressOfVersion t.flattened_saddr af)) d1 [] dfin rules hR r hr
  rcases hnew with h1 | h1
  · simp at h1
  · exact h1

theorem ConvertToDict_degenerate {t : PolTerm} {iv : String} (fo : List String)
    (hiv : iv = "inet" ∨ iv = "inet6")
    (hac : t.action = ["accept"])
    (hsa : t.flattened_saddr = []) (hda : t.flattened_daddr = [])
    (hsp : t.source_port = []) (hdp : t.destination_port = [])
    (hpr : t.protocol = []) (hopt : "tcp-established" ∉ t.option) :
    ConvertToDict t iv fo = .ok [{ actions := some "ACCEPT" }] := by
  rcases hiv with h | h <;> subst h
  · rw [ConvertToDict_eq_core fo (show AF_MAP "inet" = some 4 from rfl)
      (show AF_RENAME 4 = some "ipv4" from rfl)]
    apply convertCore_run_ok (SetAction_accept emptyEntry hac) (SetOptions_no_tcpe _ hopt)
    rw [hsa, hda, hsp, hdp, hpr]
    rfl
  · rw [ConvertToDict_eq_core fo (show AF_MAP "inet6" = some 6 from rfl)
      (show AF_RENAME 6 = some "ipv6" from rfl)]
    apply convertCore_run_ok (SetAction_accept emptyEntry hac) (SetOptions_no_tcpe _ hopt)
    rw [hsa, hda, hsp, hdp, hpr]
    rfl

theorem translateTerms_mixed (opts : List String) (fI fB : PolTerm → List ACLEntry) :
    ∀ (terms : List PolTerm),
      (∀ t ∈ terms, ConvertToDict t "inet" opts = .ok (fI t) ∧
        ConvertToDict t "inet6" opts = .ok (fB t)) →
      ∀ c, ∃ c2 es, translateTerms terms "mixed" opts c = .ok (c2, es) ∧
        es.map stripSeq = ((terms.map (fun t => fI t ++ fB t)).flatten).map stripSeq := by
  intro terms
  induction terms with
  | nil =>
    intro hconv c
    exact ⟨c, [], by rw [translateTerms], by simp⟩
  | cons t ts ih =>
    intro hconv c
    obtain ⟨hI, hB⟩ := hconv t (by simp)
    have hfam : translateFamilies t ["inet", "inet6"] opts c =
        .ok ((assignSeq (assignSeq c (fI t)).1 (fB t)).1,
          (assignSeq c (fI t)).2 ++ ((assignSeq (assignSeq c (fI t)).1 (fB t)).2 ++ [])) := by
      simp only [translateFamilies, hI, hB]
    obtain ⟨c2, es, hes, hmap⟩ := ih (fun u hu => hconv u (List.mem_cons_of_mem t hu))
      ((assignSeq (assignSeq c (fI t)).1 (fB t)).1)
    refine ⟨c2, ((assignSeq c (fI t)).2 ++
      ((assignSeq (assignSeq c (fI t)).1 (fB t)).2 ++ [])) ++ es, ?_, ?_⟩
    · rw [translateTerms]
      have hif : (if ("mixed" : String) = "mixed" then ["inet", "inet6"] else ["mixed"]) =
          ["inet", "inet6"] := by simp
      rw [hif, hfam]
      dsimp only
      rw [hes]
    · simp only [List.map_append, List.map_flatten, List.map_cons, List.flatten_cons,
        List.append_nil, assignSeq_strip, hmap, List.map_append]

theorem translateFilter_mixed (hdr : Header) (terms : List PolTerm)
    (opts : List String) (fI fB : PolTerm → List ACLEntry)
    (hopt : extractAF hdr.filter_options = ("mixed", opts))
    (hconv : ∀ t ∈ terms, ConvertToDict t "inet" opts = .ok (fI t) ∧
      ConvertToDict t "inet6" opts = .ok (fB t)) :
    ∃ c2 es, translateFilter hdr terms 0 = .ok (c2, ⟨hdr.filter_name, "ACL_MIXED", es⟩) ∧
      es.map stripSeq = ((terms.map (fun t => fI t ++ fB t)).flatten).map stripSeq := by
  obtain ⟨c2, es, hts, hmap⟩ := translateTerms_mixed opts fI fB terms hconv 0
  refine ⟨c2, es, ?_, hmap⟩
  unfold translateFilter
  rw [hopt]
  dsimp only
  rw [hts]
  rfl

theorem isPrefixOf_self (l : List Char) : l.isPrefixOf l = true := by
  induction l with
  | nil => rfl
  | cons a as ih => simp [List.isPrefixOf, ih]

theorem isSubList_self (l : List Char) : isSubList l l = true := by
  unfold isSubList
  cases l with
  | nil => rfl
  | cons a as =>
    rw [List.tails]
    simp [isPrefixOf_self]

theorem containsText_self (x : String) : containsText x x = true :=
  isSubList_self x.data

/-- Claim C1: for every term and single address family, ConvertToDict emits
exactly a·b·p·q·r atomic entries, where a is the number of flattened source
addresses for that family (1 if empty), b the destination addresses, p the
source-port ranges, q the destination-port ranges, r the protocols (each
empty dimension contributing 1, never 0). -/
theorem claim_C1_cardinality (t : PolTerm) (iv : String) (fo : List String) (af : Nat)
    (rules : List ACLEntry) (haf : AF_MAP iv = some af)
    (h : ConvertToDict t iv fo = .ok rules) :
    rules.length =
      dimCount (GetAddressOfVersion t.flattened_saddr af) *
      dimCount (GetAddressOfVersion t.flattened_daddr af) *
      dimCount t.source_port * dimCount t.destination_port * dimCount t.protocol := by
  obtain ⟨fam, hren, _⟩ := AF_RENAME_of_MAP haf
  rw [ConvertToDict_eq_core fo haf hren] at h
  obtain ⟨d0, d1, dfin, hA, hO, hR⟩ := convertCore_ok h
  have hlen := runSaddrs_length fam _ _ _ _ _ _ _ _ _ hR
  rw [hlen]
  simp [anySub_length, portSub_length, protoSub_length]
  ring

/-- Witness for C1 at a concrete multi-valued term under inet. -/
theorem claim_C1_cardinality_witness :
    rulesC1.length =
      dimCount (GetAddressOfVersion termC1.flattened_saddr 4) *
      dimCount (GetAddressOfVersion termC1.flattened_daddr 4) *
      dimCount termC1.source_port * dimCount termC1.destination_port *
      dimCount termC1.protocol :=
  claim_C1_cardinality termC1 "inet" [] 4 rulesC1 rfl rfl

/-- Claim C2: across one _TranslatePolicy call the sequence identifiers of
the emitted entries, in emission order across all filters, are exactly
5, 10, 15, ... (strictly increasing multiples of five with stride five and
no other gaps); the counter starts once per call and is never reset, so the
identifiers are globally unique across all rule sets of the run. -/
theorem claim_C2_sequence (filters : List (Header × List PolTerm)) (n : Nat)
    (sets : List ACLSet) (h : TranslatePolicy filters = .ok (n, sets)) :
    (allEntries sets).length = n ∧
    (allEntries sets).map (fun r => r.sequence_id) =
      (List.range n).map (fun i => some ((i + 1) * 5)) := by
  unfold TranslatePolicy at h
  split at h
  · simp at h
  · obtain ⟨h1, h2⟩ := translateFilters_seq filters 0 n sets h
    have hn : (allEntries sets).length = n := by omega
    refine ⟨hn, ?_⟩
    rw [h2, expectedIds_eq_range, hn]
    simp

/-- Witness for C2 on a two-filter policy (ten entries, ids 5..50). -/
theorem claim_C2_sequence_witness :
    (allEntries outC2.2).length = outC2.1 ∧
    (allEntries outC2.2).map (fun r => r.sequence_id) =
      (List.range outC2.1).map (fun i => some ((i + 1) * 5)) :=
  claim_C2_sequence polC2 outC2.1 outC2.2 rfl

/-- Claim C3: a filter declared mixed yields a single rule set whose
entries interleave per term: for each term in document order, all of its
inet entries are appended, then all of its inet6 entries, before the next
term is processed. -/
theorem claim_C3_mixed_interleaving (hdr : Header) (terms : List PolTerm)
    (opts : List String) (fI fB : PolTerm → List ACLEntry)
    (hopt : extractAF hdr.filter_options = ("mixed", opts))
    (hconv : ∀ t ∈ terms, ConvertToDict t "inet" opts = .ok (fI t) ∧
      ConvertToDict t "inet6" opts = .ok (fB t)) :
    ∃ n es, TranslatePolicy [(hdr, terms)] =
        .ok (n, [⟨hdr.filter_name, "ACL_MIXED", es⟩]) ∧
      es.map stripSeq = ((terms.map (fun t => fI t ++ fB t)).flatten).map stripSeq := by
  obtain ⟨c2, es, hfil, hmap⟩ := translateFilter_mixed hdr terms opts fI fB hopt hconv
  refine ⟨c2, es, ?_, hmap⟩
  unfold TranslatePolicy
  rw [if_neg (by simp)]
  rw [translateFilters, hfil]
  dsimp only
  rw [translateFilters]

/-- Witness for C3 on a mixed filter with two terms. -/
theorem claim_C3_mixed_interleaving_witness :
    ∃ n es, TranslatePolicy [(hdrC3, [termC3a, termC3b])] =
        .ok (n, [⟨hdrC3.filter_name, "ACL_MIXED", es⟩]) ∧
      es.map stripSeq =
        (([termC3a, termC3b].map
          (fun t => convRules "inet" t ++ convRules "inet6" t)).flatten).map stripSeq :=
  claim_C3_mixed_interleaving hdrC3 [termC3a, termC3b] []
    (convRules "inet") (convRules "inet6") (by decide)
    (by
      intro t ht
      simp [List.mem_cons] at ht
      rcases ht with h | h <;> subst h <;> exact ⟨rfl, rfl⟩)

/-- Claim C4: a term with the tcp-established option succeeds when its
protocol list is exactly [tcp] and every emitted entry carries the fixed
marker pair detail-mode BUILTIN / builtin-detail TCP_ESTABLISHED; with any
other protocol list conversion raises TcpEstablishedWithNonTcpError and no
entries are emitted for the term. -/
theorem claim_C4_tcp_established (t : PolTerm) (iv : String) (fo : List String)
    (af : Nat) (fam : String) (d0 : ACLEntry)
    (haf : AF_MAP iv = some af) (hren : AF_RENAME af = some fam)
    (hopt : "tcp-established" ∈ t.option)
    (hA : SetAction t emptyEntry = .ok d0) :
    (t.protocol = [ProtoSpec.str "tcp"] →
      ∃ rules, ConvertToDict t iv fo = .ok rules ∧ ∀ r ∈ rules, hasMarkers r = true) ∧
    (t.protocol ≠ [ProtoSpec.str "tcp"] →
      ConvertToDict t iv fo = .error
        (.tcpEstab ("tcp-established can only be used with tcp protocol in term " ++ t.name))) := by
  constructor
  · intro hp
    obtain ⟨rules, hok⟩ := ConvertToDict_tcp_ok fo haf hren hopt hp hA
    exact ⟨rules, hok, ConvertToDict_markers hopt hp hok⟩
  · intro hp
    exact ConvertToDict_tcp_err fo haf hren hopt hp hA

/-- Witness for C4: success with protocol [tcp], failure with [udp]. -/
theorem claim_C4_tcp_established_witness :
    (∃ rules, ConvertToDict termC4 "inet" [] = .ok rules ∧
      ∀ r ∈ rules, hasMarkers r = true) ∧
    ConvertToDict termC4b "inet" [] = .error
      (.tcpEstab ("tcp-established can only be used with tcp protocol in term " ++ termC4b.name)) :=
  ⟨(claim_C4_tcp_established termC4 "inet" [] 4 "ipv4" { actions := some "ACCEPT" }
      rfl rfl (by decide) rfl).1 rfl,
    (claim_C4_tcp_established termC4b "inet" [] 4 "ipv4" { actions := some "ACCEPT" }
      rfl rfl (by decide) rfl).2 (by decide)⟩

/-- Counterexample to claim C5: the protocol-resolution error raised for an
unknown mnemonic carries the offending token but not the term's name; for a
term named zzterm with protocol bogus, no string of the raised
OcFirewallError contains the term name. -/
theorem claim_C5_counterexample :
    ConvertToDict termC5 "inet" [] = .error (.ocFirewall "bogus") ∧
    carriesText (.ocFirewall "bogus") "bogus" = true ∧
    carriesText (.ocFirewall "bogus") termC5.name = false :=
  ⟨rfl, rfl, rfl⟩

/-- Claim C5 (amended): a term whose protocol list contains an unresolvable
string mnemonic (other than the none sentinel) fails with a
protocol-resolution error that carries an unknown token from the list; the
term's name is not part of the error. -/
theorem claim_C5_amended (t : PolTerm) (iv : String) (fo : List String)
    (af : Nat) (fam : String) (d0 d1 : ACLEntry) (s : String)
    (haf : AF_MAP iv = some af) (hren : AF_RENAME af = some fam)
    (hmem : ProtoSpec.str s ∈ t.protocol) (hs : s ≠ "none") (hmap : PROTO_MAP s = none)
    (hA : SetAction t emptyEntry = .ok d0) (hO : SetOptions t d0 = .ok d1) :
    ∃ tok, ConvertToDict t iv fo = .error (.ocFirewall tok) ∧
      PROTO_MAP tok = none ∧ tok ≠ "none" ∧ ProtoSpec.str tok ∈ t.protocol ∧
      carriesText (.ocFirewall tok) tok = true := by
  obtain ⟨tok, h1, h2, h3, h4⟩ :=
    ConvertToDict_err_unknown_proto fo haf hren hmem hs hmap hA hO
  refine ⟨tok, h4, h1, h2, h3, ?_⟩
  simp [carriesText, errorStrings, List.any_cons, List.any_nil, containsText_self]

/-- Witness for the amended C5 at the concrete zzterm / bogus input. -/
theorem claim_C5_amended_witness :
    ∃ tok, ConvertToDict termC5 "inet" [] = .error (.ocFirewall tok) ∧
      PROTO_MAP tok = none ∧ tok ≠ "none" ∧ ProtoSpec.str tok ∈ termC5.protocol ∧
      carriesText (.ocFirewall tok) tok = true :=
  claim_C5_amended termC5 "inet" [] 4 "ipv4" { actions := some "ACCEPT" }
    { actions := some "ACCEPT" } "bogus" rfl rfl (by decide) (by decide) rfl rfl rfl

/-- Counterexample to claim C6: for a term with protocol 6, the emitted
entry stores the protocol number inside the ipv4 config block and carries
no transport block at all, so the protocol does not appear in a transport
block. -/
theorem claim_C6_counterexample :
    ConvertToDict termC6 "inet" [] = .ok [entryC6] ∧
    entryC6.transport = none ∧
    entryC6.ipv4 = some ⟨none, none, some 6⟩ :=
  ⟨rfl, rfl, rfl⟩

/-- Claim C6 (amended): for every emitted atomic entry whose term specified
protocols (a nonempty protocol list without the 'none' sentinel), the
protocol number stored on the entry is the resolution of one of the term's
protocol entries — a numeric entry used directly, a string mnemonic
resolved through the protocol-name map — and it appears as the optional
protocol field of the entry's address-family config block (ipv4/ipv6,
alongside the addresses), not in the transport block. -/
theorem claim_C6_amended (t : PolTerm) (iv : String) (fo : List String)
    (af : Nat) (fam : String) (rules : List ACLEntry)
    (haf : AF_MAP iv = some af) (hren : AF_RENAME af = some fam)
    (hne : t.protocol ≠ []) (hnone : ProtoSpec.str "none" ∉ t.protocol)
    (h : ConvertToDict t iv fo = .ok rules) :
    ∀ r ∈ rules, ∃ p ∈ t.protocol, ∃ m,
      protoNumOf p = some m ∧ entryProtocol fam r = some m :=
  ConvertToDict_protocol_resolved haf hren hne hnone h

/-- Witness for the amended C6 at the single entry of a term whose
protocol is the mnemonic sctp, resolved to 132 in the ipv4 block. -/
theorem claim_C6_amended_witness :
    ∃ p ∈ termC6s.protocol, ∃ m,
      protoNumOf p = some m ∧ entryProtocol "ipv4" entryC6s = some m :=
  claim_C6_amended termC6s "inet" [] 4 "ipv4" rulesC6s rfl rfl (by decide) (by decide)
    rfl entryC6s (by decide)

/-- Counterexample to claim C7: a term with every match-field list empty
and action accept, but carrying the tcp-established option, raises the
option-conflict error instead of emitting one entry. -/
theorem claim_C7_counterexample :
    ConvertToDict termC7x "inet" [] = .error
      (.tcpEstab "tcp-established can only be used with tcp protocol in term termC7x") :=
  rfl

/-- Claim C7 (amended): a term with empty address, port and protocol lists
and action accept, not carrying the tcp-established option, yields exactly
one entry whose only populated field is the action (no family block, no
ports, no protocol); with tcp-established the empty protocol list conflicts
and conversion raises instead. -/
theorem claim_C7_degenerate (t : PolTerm) (iv : String) (fo : List String)
    (hiv : iv = "inet" ∨ iv = "inet6")
    (hac : t.action = ["accept"])
    (hsa : t.flattened_saddr = []) (hda : t.flattened_daddr = [])
    (hsp : t.source_port = []) (hdp : t.destination_port = [])
    (hpr : t.protocol = []) (hopt : "tcp-established" ∉ t.option) :
    ConvertToDict t iv fo = .ok [{ actions := some "ACCEPT" }] :=
  ConvertToDict_degenerate fo hiv hac hsa hda hsp hdp hpr hopt

/-- Witness for the amended C7 at a degenerate term with an inert option. -/
theorem claim_C7_degenerate_witness :
    ConvertToDict termC7 "inet" [] = .ok [{ actions := some "ACCEPT" }] :=
  claim_C7_degenerate termC7 "inet" [] (Or.inl rfl) rfl rfl rfl rfl rfl rfl (by decide)

/-- Counterexample to claim C8: with source_port [(443,443), (0,0)], the
entry emitted for the sentinel iteration still carries source-port 443
rather than no source-port field. -/
theorem claim_C8_counterexample :
    ConvertToDict termC8x "inet" [] = .ok [entryC8, entryC8] ∧
    entrySourcePort entryC8 = some (PortVal.scalar 443) :=
  ⟨rfl, rfl⟩

/-- Claim C8 (amended): for a term whose source-port (resp.
destination-port) list is a single range, the emitted entries carry the
scalar start when start = end and the start..end range value otherwise;
when the list is empty or the single (0, 0) sentinel, no source-port
(resp. destination-port) value is ever written, so the field is absent.
With several ranges, a sentinel iteration retains the value left by the
previous iteration (see the counterexample). -/
theorem claim_C8_port_rendering (t : PolTerm) (iv : String) (fo : List String)
    (af : Nat) (fam : String) (rules : List ACLEntry)
    (haf : AF_MAP iv = some af) (hren : AF_RENAME af = some fam)
    (h : ConvertToDict t iv fo = .ok rules) :
    (∀ s e, t.source_port = [(s, e)] → ¬(s = e ∧ e = 0) →
      ∀ r ∈ rules, entrySourcePort r =
        some (if s = e then PortVal.scalar s else PortVal.interval s e)) ∧
    ((t.source_port = [] ∨ t.source_port = [(0, 0)]) →
      ∀ r ∈ rules, entrySourcePort r = none) ∧
    (∀ s e, t.destination_port = [(s, e)] → ¬(s = e ∧ e = 0) →
      ∀ r ∈ rules, entryDestPort r =
        some (if s = e then PortVal.scalar s else PortVal.interval s e)) ∧
    ((t.destination_port = [] ∨ t.destination_port = [(0, 0)]) →
      ∀ r ∈ rules, entryDestPort r = none) := by
  refine ⟨?_, ?_, ?_, ?_⟩
  · intro s e hsp hns
    exact ConvertToDict_sport_single haf hren hsp hns h
  · intro hsp
    apply ConvertToDict_sport_none haf hren ?_ h
    rcases hsp with h1 | h1 <;> rw [h1] <;> rfl
  · intro s e hdp hns
    exact ConvertToDict_dport_single haf hren hdp hns h
  · intro hdp
    apply ConvertToDict_dport_none haf hren ?_ h
    rcases hdp with h1 | h1 <;> rw [h1] <;> rfl

/-- Witness for the amended C8: the single entry of a term with
source-port range 1000..2000, and the single entry of a term with
destination-port 53 (scalar form). -/
theorem claim_C8_port_rendering_witness :
    (entrySourcePort entryC8w =
      some (if 1000 = 2000 then PortVal.scalar 1000 else PortVal.interval 1000 2000)) ∧
    (entryDestPort entryC8d =
      some (if 53 = 53 then PortVal.scalar 53 else PortVal.interval 53 53)) :=
  ⟨(claim_C8_port_rendering termC8 "inet" [] 4 "ipv4" rulesC8 rfl rfl rfl).1
      1000 2000 rfl (by decide) entryC8w (by decide),
    (claim_C8_port_rendering termC8d "inet" [] 4 "ipv4" rulesC8d rfl rfl rfl).2.2.1
      53 53 rfl (by decide) entryC8d (by decide)⟩

/-- Counterexample to claim C9: the degenerate identity entry produced by a
translation run has no address-family block at all (neither ipv4 nor ipv6),
so an entry need not contain exactly one family block. -/
theorem claim_C9_counterexample :
    TranslatePolicy polC9 = .ok (1, [⟨"f9", "ACL_IPV4", [entryC9]⟩]) ∧
    entryC9.ipv4 = none ∧ entryC9.ipv6 = none :=
  ⟨rfl, rfl, rfl⟩

/-- Claim C9 (amended): every atomic entry produced by a translation run
contains at most one address-family block (never both ipv4 and ipv6); the
block, when present, holds at most one source and one destination address
by construction of the config record. -/
theorem claim_C9_family_blocks (filters : List (Header × List PolTerm)) (n : Nat)
    (sets : List ACLSet) (h : TranslatePolicy filters = .ok (n, sets)) :
    ∀ s ∈ sets, ∀ r ∈ s.entries, r.ipv4 = none ∨ r.ipv6 = none := by
  unfold TranslatePolicy at h
  split at h
  · simp at h
  · exact translateFilters_pres (fun r => r.ipv4 = none ∨ r.ipv6 = none)
      (fun r c hr => hr)
      (fun t f opts rules hc => ConvertToDict_offFamily t f opts rules hc)
      filters 0 n sets h

/-- Witness for the amended C9 at the single entry of polC9's run. -/
theorem claim_C9_family_blocks_witness :
    entryC9.ipv4 = none ∨ entryC9.ipv6 = none :=
  claim_C9_family_blocks polC9 outC9.1 outC9.2 rfl
    ⟨"f9", "ACL_IPV4", [entryC9]⟩ (by decide) entryC9 (by decide)

/-- Claim C10: the working dict is mutated in place and only deep-copied at
emission, so a field set in an earlier iteration persists into later
entries; for source_port [(80,80), (0,0)] both emitted entries carry
source-port 80, the sentinel iteration included. -/
theorem claim_C10_mutation_persists :
    ConvertToDict termC10 "inet" [] = .ok [entryC10, entryC10] ∧
    entrySourcePort entryC10 = some (PortVal.scalar 80) :=
  ⟨rfl, rfl⟩

end Oc
